import Mathlib

/-!
Verification development for the LibJsonValidator JSON-Schema compiler and
validator (draft 2019-09).  The C++ sources under
src/Libraries/LibJsonValidator are shallowly embedded below:

* AK `JsonValue` (an external collaborator of the library) becomes the
  inductive `Json`; IEEE-754 doubles are modelled as exact rationals (`Rat`)
  and the unsigned 64-bit truncation cast in `NumberNode::validate` as
  truncation toward zero on rationals.
* the `JsonSchemaNode` class hierarchy becomes the inductive `SNode` (one
  node record carrying the base-class fields and every variant's fields,
  with a tag selecting the variant); owning pointers become subterms and
  the weak `m_reference` pointer becomes a root-relative path of `Step`s.
* `Parser::get_typed_node` / `Parser::run` become `getTypedNode` /
  `parserRun`; the recursion is bounded by an explicit fuel argument (the
  C++ recursion is unbounded; every concrete run below uses ample fuel).
* the reference-resolution pass with its three process-wide `static bool`
  selection flags becomes `resolveNodePass` over an explicit
  `ResolverState` that is threaded in the source's execution order.
* `JsonSchemaNode::validate` and the variant overrides become
  `validateNode`, likewise fuel-bounded; validation errors are modelled by
  the inductive `VError`, one constructor per distinct `addf` format
  string of the source, carrying the formatted arguments.
-/

namespace JsonValidator

/- AK JsonValue: null, boolean, integers, doubles, string, array, object
(ordered members).  `undefined` is AK's empty `JsonValue()`, returned by
`JsonObject::get` for a missing key.  The array and object payloads are
mutually inductive lists so that decidable equality can be derived. -/
mutual
inductive Json where
  | undefined
  | null
  | bool (b : Bool)
  | int (n : Int)
  | num (q : Rat)
  | str (s : String)
  | arr (elems : JsonList)
  | obj (members : JsonMembers)
deriving DecidableEq
inductive JsonList where
  | nil
  | cons (hd : Json) (tl : JsonList)
deriving DecidableEq
inductive JsonMembers where
  | nil
  | cons (key : String) (val : Json) (tl : JsonMembers)
deriving DecidableEq
end

def JsonList.toList : JsonList → List Json
  | .nil => []
  | .cons h t => h :: t.toList

def JsonList.ofList : List Json → JsonList
  | [] => .nil
  | h :: t => .cons h (JsonList.ofList t)

def JsonMembers.toList : JsonMembers → List (String × Json)
  | .nil => []
  | .cons k v t => (k, v) :: t.toList

def JsonMembers.ofList : List (String × Json) → JsonMembers
  | [] => .nil
  | (k, v) :: t => .cons k v (JsonMembers.ofList t)

/-- Build an array value from a plain list. -/
def Json.arrOf (xs : List Json) : Json := .arr (JsonList.ofList xs)

/-- Build an object value from a plain member list. -/
def Json.objOf (ms : List (String × Json)) : Json := .obj (JsonMembers.ofList ms)

def Json.isBool : Json → Bool
  | .bool _ => true
  | _ => false

def Json.isNull : Json → Bool
  | .null => true
  | _ => false

def Json.isUndefined : Json → Bool
  | .undefined => true
  | _ => false

def Json.isString : Json → Bool
  | .str _ => true
  | _ => false

def Json.isArray : Json → Bool
  | .arr _ => true
  | _ => false

def Json.isObject : Json → Bool
  | .obj _ => true
  | _ => false

/-- AK `JsonValue::is_number`: integer or floating-point. -/
def Json.isNumber : Json → Bool
  | .int _ => true
  | .num _ => true
  | _ => false

/-- The source's integer-representation tests `is_i32 || is_i64 || is_u32 ||
is_u64` collapse to "the value is stored as an integer" in this model. -/
def Json.isIntRepr : Json → Bool
  | .int _ => true
  | _ => false

/-- AK `is_u32 || is_u64`: a non-negative stored integer. -/
def Json.isU32OrU64 : Json → Bool
  | .int n => decide (0 ≤ n)
  | _ => false

/-- Members of an object value; `[]` for every other value (the source
would assert in `as_object`, but no call below reaches that case with a
non-object). -/
def Json.objMembers : Json → List (String × Json)
  | .obj ms => ms.toList
  | _ => []

/-- Elements of an array value; `[]` for every other value. -/
def Json.arrElems : Json → List Json
  | .arr xs => xs.toList
  | _ => []

/-- First assoc-list hit, mirroring lookups in AK's ordered maps. -/
def lookupAssoc {α : Type} (l : List (String × α)) (k : String) : Option α :=
  (l.find? (fun p => p.1 = k)).map Prod.snd

/-- AK `JsonObject::get`: the member value, or the undefined value. -/
def Json.get (j : Json) (k : String) : Json :=
  match lookupAssoc j.objMembers k with
  | some v => v
  | none => .undefined

/-- AK `JsonObject::get_or`. -/
def Json.getOr (j : Json) (k : String) (d : Json) : Json :=
  match lookupAssoc j.objMembers k with
  | some v => v
  | none => d

/-- AK `JsonObject::has`. -/
def Json.hasKey (j : Json) (k : String) : Bool :=
  (lookupAssoc j.objMembers k).isSome

/-- AK `JsonValue::as_string_or`. -/
def Json.asStringOr (j : Json) (d : String) : String :=
  match j with
  | .str s => s
  | _ => d

/-- AK `JsonValue::as_bool`. -/
def Json.asBoolD : Json → Bool
  | .bool b => b
  | _ => false

/-- AK `JsonValue::to_number<double>()` with its default of 0 for
non-numeric values; doubles are modelled as exact rationals. -/
def Json.toNumberQ : Json → Rat
  | .int n => (n : Rat)
  | .num q => q
  | _ => 0

/-- AK `to_number<u32>(0)` / `to_u32()`: non-negative part of the stored
number (negative and fractional cases are clamped/truncated; no claim
exercises them). -/
def Json.toU32 : Json → Nat
  | .int n => n.toNat
  | .num q => q.floor.toNat
  | _ => 0

/-- AK `JsonObject::size`: the member count. -/
def Json.objSize (j : Json) : Nat := j.objMembers.length

/-- AK `JsonValue::equals` (deep JSON equality), modelled as structural
equality of the embedding. -/
def jsonEquals (a b : Json) : Bool := decide (a = b)

/-- The `InstanceType` enumeration of JsonSchemaNode.h. -/
inductive InstanceType where
  | undefinedT
  | nullT
  | booleanT
  | objectT
  | arrayT
  | numberT
  | stringT
deriving DecidableEq

/-- One step from a schema node to one of its owned children.  A list of
steps is a root-relative path; paths play the role of the C++ node
pointers (each owned node sits at exactly one path). -/
inductive Step where
  | property (name : String)
  | patternProperty (i : Nat)
  | additionalProperties
  | propertyNames
  | dependentSchema (name : String)
  | item (i : Nat)
  | containsStep
  | additionalItems
  | allOf (i : Nat)
  | anyOf (i : Nat)
  | oneOf (i : Nat)
  | notStep
  | defs (name : String)
deriving DecidableEq

/-- The three process-wide `static bool` selection flags of
`resolve_reference_handle_identifer` (base, ObjectNode and ArrayNode
overrides): `selected_defs`, `selected_properties`, `selected_items`. -/
structure ResolverState where
  selDefs : Bool := false
  selProps : Bool := false
  selItems : Bool := false
deriving DecidableEq

/-- The flag state a freshly started process has. -/
def cleanState : ResolverState := {}

/-- Parser errors (`Parser::add_parser_error`), one constructor per
distinct message of Parser.cpp. -/
inductive PErr where
  | rootNotObject
  | unknownSchema
  | rootNodeFail
  | multipleTypes
  | subSchemaNotArray (property : String) (v : Json)
  | itemsWrongType (v : Json)
  | patternNotString
  | minLengthNotInt
  | maxLengthNotInt
  | propertiesNotObject
  | patternPropertiesNotObject
  | patternPropertyElementNotObject
  | requiredNotArray
  | requiredValueNotString
  | dependentRequiredNotObject
  | dependentRequiredItemNotArray
  | dependentRequiredDependencyNotString
  | dependentSchemasNotObject
deriving DecidableEq

/-- Validation errors (`ValidationError::add/addf`), one constructor per
distinct format string of JsonSchemaNode.cpp, carrying the formatted
arguments (`ptr` is the node's JSON pointer, `j` the stringified
instance fragment of the message). -/
inductive VError where
  | typeValidationFailed (j : Json) (t : InstanceType)
  | requiredNotPresent (ptr : String) (j : Json)
  | anyOfNoMatch (ptr : String) (j : Json)
  | oneOfNoMatch (ptr : String) (j : Json)
  | enumNoMatch (ptr : String) (j : Json)
  | defsSubschemaInvalid (ptr : String) (j : Json)
  | stringPatternNoMatch (ptr : String) (j : Json)
  | maxLengthViolation (ptr : String) (j : Json)
  | minLengthViolation (ptr : String) (j : Json)
  | numberNotInteger (ptr : String) (j : Json)
  | minimumInvalid (x bound : Rat) (ptr : String) (j : Json)
  | maximumInvalid (x bound : Rat) (ptr : String) (j : Json)
  | exclusiveMinimumInvalid (x bound : Rat) (ptr : String) (j : Json)
  | exclusiveMaximumInvalid (x bound : Rat) (ptr : String) (j : Json)
  | multipleOfInvalid (x k : Rat) (ptr : String) (j : Json)
  | minPropertiesNotMet (min size : Nat) (ptr : String) (j : Json)
  | maxPropertiesNotMet (max size : Nat) (ptr : String) (j : Json)
  | requiredValueNotFound (name : String) (ptr : String) (j : Json)
  | dependentRequiredNotFound (dep : String) (ptr : String) (j : Json)
  | dependentSchemaInvalid (ptr : String) (j : Json)
  | additionalPropertyInvalid (ptr : String) (j : Json)
  | propertyNotInSchema (key : String) (ptr : String) (j : Json)
  | propertyNamesInvalid (ptr : String) (j : Json)
  | minItemsViolation
  | maxItemsViolation
  | uniqueItemsViolation (item : Json) (ptr : String) (j : Json)
  | arrayContainsViolation (ptr : String) (j : Json)
deriving DecidableEq

/-- NumberNode's fields (all `Optional<double>`). -/
structure NumF where
  multipleOf : Option Rat := none
  maximum : Option Rat := none
  exclusiveMaximum : Option Rat := none
  minimum : Option Rat := none
  exclusiveMinimum : Option Rat := none
deriving DecidableEq

/-- StringNode's fields. -/
structure StrF where
  maxLength : Option Nat := none
  minLength : Option Nat := none
  pattern : Option String := none
deriving DecidableEq

/-- ObjectNode's fields, parametric in the node type (nested below). -/
structure ObjF (σ : Type) where
  properties : List (String × σ) := []
  patternProperties : List σ := []
  maxProperties : Option Nat := none
  minProperties : Nat := 0
  requiredKeys : List String := []
  dependentRequired : List (String × List String) := []
  dependentSchemas : List (String × σ) := []
  additionalProperties : Option σ := none
  propertyNames : Option σ := none

/-- ArrayNode's fields, parametric in the node type. -/
structure ArrF (σ : Type) where
  items : List σ := []
  contains : Option σ := none
  additionalItems : Option σ := none
  itemsIsArray : Bool := false
  maxItems : Option Nat := none
  minItems : Nat := 0
  uniqueItems : Bool := false

/-- All fields of a schema node: the JsonSchemaNode base-class fields
followed by the variant-specific field groups (unused groups keep their
defaults, as the C++ object layout would).  `tag` plays the role of the
C++ dynamic type. -/
structure NodeData (σ : Type) where
  id : String := ""
  tag : InstanceType
  typeStr : String := ""
  defaultValue : Json := .undefined
  enumItems : List Json := []
  identifiedByPattern : Bool := false
  isRoot : Bool := false
  pattern : String := ""
  ref : String := ""
  reference : Option (List Step) := none
  required : Bool := false
  allOf : List σ := []
  anyOf : List σ := []
  oneOf : List σ := []
  notNode : Option σ := none
  defs : List (String × σ) := []
  anchors : List (String × List Step) := []
  numF : NumF := {}
  strF : StrF := {}
  objF : ObjF σ := {}
  arrF : ArrF σ := {}
  boolValue : Option Bool := none

/-- A compiled schema node (JsonSchemaNode and its subclasses). -/
inductive SNode where
  | mk (d : NodeData SNode)

def SNode.d : SNode → NodeData SNode
  | .mk d => d

theorem SNode.mk_d (n : SNode) : SNode.mk n.d = n := by
  cases n
  rfl

/-- The owned child of a node along one step (this is how the weak
`m_reference` paths are dereferenced). -/
def SNode.childAt (n : SNode) : Step → Option SNode
  | .property name => lookupAssoc n.d.objF.properties name
  | .patternProperty i => n.d.objF.patternProperties.get? i
  | .additionalProperties => n.d.objF.additionalProperties
  | .propertyNames => n.d.objF.propertyNames
  | .dependentSchema name => lookupAssoc n.d.objF.dependentSchemas name
  | .item i => n.d.arrF.items.get? i
  | .containsStep => n.d.arrF.contains
  | .additionalItems => n.d.arrF.additionalItems
  | .allOf i => n.d.allOf.get? i
  | .anyOf i => n.d.anyOf.get? i
  | .oneOf i => n.d.oneOf.get? i
  | .notStep => n.d.notNode
  | .defs name => lookupAssoc n.d.defs name

/-- Dereference a root-relative path. -/
def getNode (root : SNode) : List Step → Option SNode
  | [] => some root
  | s :: rest =>
    match root.childAt s with
    | some c => getNode c rest
    | none => none

/-- All immediate owned children of a node. -/
def SNode.children (n : SNode) : List SNode :=
  n.d.allOf ++ n.d.anyOf ++ n.d.oneOf ++ n.d.notNode.toList ++
    n.d.defs.map Prod.snd ++ n.d.objF.properties.map Prod.snd ++
    n.d.objF.patternProperties ++ n.d.objF.dependentSchemas.map Prod.snd ++
    n.d.objF.additionalProperties.toList ++ n.d.objF.propertyNames.toList ++
    n.d.arrF.items ++ n.d.arrF.contains.toList ++ n.d.arrF.additionalItems.toList

/-! String utilities used by the resolver and the pointer computation. -/

/-- Split on the slash character.  This is exactly what the
`find_char`/`substring` loop of `JsonSchemaNode::resolve_reference`
(JsonSchemaNode.cpp:103-119) computes: consecutive separators yield empty
tokens and a trailing separator yields a trailing empty token. -/
def splitSlashAux : List Char → List Char → List String
  | [], acc => [String.mk acc.reverse]
  | c :: rest, acc =>
    if c = '/' then String.mk acc.reverse :: splitSlashAux rest []
    else splitSlashAux rest (c :: acc)

def splitSlash (s : String) : List String := splitSlashAux s.data []

/-- AK `String::replace(needle, replacement, true)` — left-to-right
non-overlapping replacement of every occurrence — specialised to the
two-character needles the resolver uses (`~1` and `~0`). -/
def replacePairChars (a b : Char) (repl : List Char) : List Char → List Char
  | [] => []
  | [c] => [c]
  | c1 :: c2 :: rest =>
    if c1 = a && c2 = b then repl ++ replacePairChars a b repl rest
    else c1 :: replacePairChars a b repl (c2 :: rest)

/-- AK `String::replace(needle, replacement, true)` specialised to a
one-character needle (the `#` removal of the anchor lookup). -/
def replaceOneChar (a : Char) (repl : List Char) : List Char → List Char
  | [] => []
  | c :: rest =>
    if c = a then repl ++ replaceOneChar a repl rest
    else c :: replaceOneChar a repl rest

/-- The per-token unescaping of `resolve_reference`
(JsonSchemaNode.cpp:111-112): first every `~1` becomes `/`, then every
`~0` becomes `~`. -/
def unescapeToken (tok : String) : String :=
  String.mk (replacePairChars '~' '0' ['~'] (replacePairChars '~' '1' ['/'] tok.data))

/-- The anchor-name extraction `copy.replace("#", "")` of
`resolve_reference_handle_identifer`. -/
def removeAllHash (tok : String) : String :=
  String.mk (replaceOneChar '#' [] tok.data)

/-- AK `String::starts_with`. -/
def strStartsWith (s pre : String) : Bool := pre.data.isPrefixOf s.data

def digitChar (d : Nat) : Char := Char.ofNat (48 + d)

def isDigitChar (c : Char) : Bool := decide (48 ≤ c.toNat ∧ c.toNat ≤ 57)

/-- Decimal rendering of a natural number (fuel-bounded division chain;
the fuel `n + 1` always suffices). -/
def natReprAux : Nat → Nat → List Char
  | 0, _ => []
  | f + 1, n =>
    if n < 10 then [digitChar n]
    else natReprAux f (n / 10) ++ [digitChar (n % 10)]

def natRepr (n : Nat) : String := String.mk (natReprAux (n + 1) n)

def parseUIntChars : List Char → Nat → Option Nat
  | [], acc => some acc
  | c :: rest, acc =>
    if isDigitChar c then parseUIntChars rest (acc * 10 + (c.toNat - 48)) else none

/-- AK `String::to_uint(ok)`: a non-empty all-decimal-digit string parses,
anything else fails (the u32 range limit of AK is not modelled; no input
below approaches it). -/
def parseUInt (s : String) : Option Nat :=
  if s.data.isEmpty then none else parseUIntChars s.data 0

def hexVal (c : Char) : Option Nat :=
  if 48 ≤ c.toNat ∧ c.toNat ≤ 57 then some (c.toNat - 48)
  else if 97 ≤ c.toNat ∧ c.toNat ≤ 102 then some (c.toNat - 87)
  else if 65 ≤ c.toNat ∧ c.toNat ≤ 70 then some (c.toNat - 55)
  else none

/-- Modelled from the spec: the percent-decoding performed by
`JsonSchemaNode::set_ref` (JsonSchemaNode.h:142-167) relies on
`JsonValidator::replace`, whose definition is not part of the sources
under src/; spec section 4.1 states that percent-encoded octets within
the ref are decoded to single characters, except `%2F` which becomes
`~1` and `%7E` which becomes `~0`. -/
def percentDecodeChars : List Char → List Char
  | [] => []
  | '%' :: h1 :: h2 :: rest =>
    match hexVal h1, hexVal h2 with
    | some a, some b =>
      let v := a * 16 + b
      if v = 47 then '~' :: '1' :: percentDecodeChars rest
      else if v = 126 then '~' :: '0' :: percentDecodeChars rest
      else Char.ofNat v :: percentDecodeChars rest
    | _, _ => '%' :: percentDecodeChars (h1 :: h2 :: rest)
  | c :: rest => c :: percentDecodeChars rest

/-- `JsonSchemaNode::set_ref`: the stored ref string; the decoding runs
only when a percent sign occurs. -/
def setRefTransform (s : String) : String :=
  if s.data.contains '%' then String.mk (percentDecodeChars s.data) else s

/-! The compiler: `Parser::get_typed_node` and its helpers. -/

/-- Set the `m_required` flag (JsonSchemaNode::set_required). -/
def setRequiredTrue (n : SNode) : SNode := SNode.mk { n.d with required := true }

/-- Set the base `m_pattern` field (JsonSchemaNode::compile_pattern; the
`regcomp` side effect concerns only the external regex engine). -/
def setPatternField (n : SNode) (pat : String) : SNode :=
  SNode.mk { n.d with pattern := pat }

/-- Mark the root node (JsonSchemaNode::set_root). -/
def setRoot (n : SNode) : SNode := SNode.mk { n.d with isRoot := true }

/-- The member initializer of `ObjectNode::m_additional_properties`
(JsonSchemaNode.h:450): a literal-true Boolean node. -/
def defaultTrueBooleanNode : SNode :=
  SNode.mk { tag := .booleanT, boolValue := some true }

/-- Compile each element of a JSON list, keeping the successfully
compiled children in order and concatenating the parser errors
(`gtn` is the compiler at the next lower fuel). -/
def compileList (gtn : Json → Option SNode × List PErr) : List Json → List SNode × List PErr
  | [] => ([], [])
  | j :: rest =>
    let r := gtn j
    let rs := compileList gtn rest
    (r.1.toList ++ rs.1, r.2 ++ rs.2)

/-- Compile the value of each member, keeping the key. -/
def compileMembers (gtn : Json → Option SNode × List PErr) : List (String × Json) → List (String × SNode) × List PErr
  | [] => ([], [])
  | (k, v) :: rest =>
    let r := gtn v
    let rs := compileMembers gtn rest
    ((r.1.map (fun n => (k, n))).toList ++ rs.1, r.2 ++ rs.2)

/-- The `patternProperties` member loop of `get_typed_node`
(Parser.cpp:353-363): non-object entries are parser errors; compiled
children get the entry's key compiled as their pattern. -/
def compilePatternProps (gtn : Json → Option SNode × List PErr) : List (String × Json) → List SNode × List PErr
  | [] => ([], [])
  | (k, v) :: rest =>
    if v.isObject then
      let r := gtn v
      let rs := compilePatternProps gtn rest
      ((r.1.map (fun n => setPatternField n k)).toList ++ rs.1, r.2 ++ rs.2)
    else
      let rs := compilePatternProps gtn rest
      (rs.1, PErr.patternPropertyElementNotObject :: rs.2)

/-- Flag a property child required (the inner loop of the `required`
processing, Parser.cpp:383-387). -/
def applyRequiredOne (name : String) (props : List (String × SNode)) : List (String × SNode) :=
  props.map (fun p => if p.1 = name then (p.1, setRequiredTrue p.2) else p)

/-- The `required` entry loop (Parser.cpp:377-390): non-string entries
are errors and are skipped; string entries flag the matching property
child and are appended to the node's required set. -/
def processRequired : List Json → List (String × SNode) → List (String × SNode) × List String × List PErr
  | [], props => (props, [], [])
  | rp :: rest, props =>
    match rp with
    | .str s =>
      let r := processRequired rest (applyRequiredOne s props)
      (r.1, s :: r.2.1, r.2.2)
    | _ =>
      let r := processRequired rest props
      (r.1, r.2.1, PErr.requiredValueNotString :: r.2.2)

/-- The dependency list of one `dependentRequired` entry
(Parser.cpp:404-412); the `HashTable` silently drops duplicates. -/
def depReqDepsAux : List Json → List String → List String × List PErr
  | [], acc => (acc, [])
  | d :: rest, acc =>
    match d with
    | .str s => depReqDepsAux rest (if s ∈ acc then acc else acc ++ [s])
    | _ =>
      let r := depReqDepsAux rest acc
      (r.1, PErr.dependentRequiredDependencyNotString :: r.2)

/-- The `dependentRequired` member loop (Parser.cpp:399-415); the entry
is appended even when its value is not an array (with an empty set). -/
def processDepReq : List (String × Json) → List (String × List String) × List PErr
  | [] => ([], [])
  | (k, v) :: rest =>
    let rs := processDepReq rest
    if v.isArray then
      let d := depReqDepsAux v.arrElems []
      ((k, d.1) :: rs.1, d.2 ++ rs.2)
    else
      ((k, []) :: rs.1, PErr.dependentRequiredItemNotArray :: rs.2)

/-- The compile-time `parse_sub_schema` (Parser.cpp:116-137), used for
`allOf`, `anyOf` and `oneOf`: the property value must be a JSON array;
each element is compiled and handed to the caller. -/
def parseSubSchemaC (gtn : Json → Option SNode × List PErr) (property : String) (j : Json) : List SNode × List PErr :=
  if j.hasKey property then
    let v := j.getOr property (Json.arrOf [])
    if v.isArray then compileList gtn v.arrElems
    else ([], [PErr.subSchemaNotArray property v])
  else ([], [])

/-- Classification hint for the Number variant (Parser.cpp:177-182). -/
def numberHint (typeStr : String) (j : Json) : Bool :=
  typeStr = "number" || typeStr = "integer" ||
    j.hasKey "minimum" || j.hasKey "maximum" ||
    j.hasKey "exclusiveMinimum" || j.hasKey "exclusiveMaximum" ||
    j.hasKey "multipleOf"

/-- Classification hint for the Array variant (Parser.cpp:209-218).
Note the second disjunct of the source: `additionalItems` counts only
together with `items`. -/
def arrayHint (typeStr : String) (j : Json) : Bool :=
  typeStr = "array" || j.hasKey "items" ||
    (j.hasKey "additionalItems" && j.hasKey "items") ||
    j.hasKey "unevaluatedItems" || j.hasKey "maxItems" || j.hasKey "minItems" ||
    j.hasKey "uniqueItems" || j.hasKey "contains" || j.hasKey "maxContains" ||
    j.hasKey "minContains"

/-- Classification hint for the String variant (Parser.cpp:278-281). -/
def stringHint (typeStr : String) (j : Json) : Bool :=
  typeStr = "string" || j.hasKey "maxLength" || j.hasKey "minLength" || j.hasKey "pattern"

/-- Classification hint for the Object variant (Parser.cpp:314-322). -/
def objectHint (typeStr : String) (j : Json) : Bool :=
  typeStr = "object" || j.hasKey "properties" || j.hasKey "additionalProperties" ||
    j.hasKey "patternProperties" || j.hasKey "minProperties" || j.hasKey "maxProperties" ||
    j.hasKey "required" || j.hasKey "dependentRequired" || j.hasKey "dependentSchemas"

/-- The Number branch of `get_typed_node` (Parser.cpp:184-207);
`multipleOf` is stored only when positive. -/
def compileNumberNode (id : String) (j : Json) : SNode :=
  SNode.mk { id := id, tag := .numberT, numF := {
    minimum := if j.hasKey "minimum" then some (j.get "minimum").toNumberQ else none,
    maximum := if j.hasKey "maximum" then some (j.get "maximum").toNumberQ else none,
    exclusiveMinimum := if j.hasKey "exclusiveMinimum" then some (j.get "exclusiveMinimum").toNumberQ else none,
    exclusiveMaximum := if j.hasKey "exclusiveMaximum" then some (j.get "exclusiveMaximum").toNumberQ else none,
    multipleOf := if j.hasKey "multipleOf" then
        (let m := (j.get "multipleOf").toNumberQ
         if 0 < m then some m else none)
      else none } }

/-- The Array branch of `get_typed_node` (Parser.cpp:220-276). -/
def compileArrayNode (gtn : Json → Option SNode × List PErr) (id : String) (j : Json) : SNode × List PErr :=
  let minItems := if (j.get "minItems").isNumber then (j.get "minItems").toU32 else 0
  let maxItems := if (j.get "maxItems").isNumber then some ((j.get "maxItems").toU32) else none
  let uniq := j.hasKey "uniqueItems"
  let addItems := if j.hasKey "additionalItems" then gtn (j.get "additionalItems") else (none, [])
  let cont := if j.hasKey "contains" then gtn (j.get "contains") else (none, [])
  let itemsRes : List SNode × Bool × List PErr :=
    if j.hasKey "items" then
      let items := j.getOr "items" (Json.objOf [])
      let tyErr : List PErr :=
        if !items.isObject && !items.isArray && !items.isBool then [.itemsWrongType items] else []
      if items.isObject then
        let r := gtn items
        (r.1.toList, false, tyErr ++ r.2)
      else if items.isArray then
        let r := compileList gtn items.arrElems
        (r.1, true, tyErr ++ r.2)
      else if items.isBool then
        let r := gtn items
        (r.1.toList, false, tyErr ++ r.2)
      else ([], false, tyErr)
    else ([], false, [])
  (SNode.mk { id := id, tag := .arrayT, arrF := {
      items := itemsRes.1, contains := cont.1, additionalItems := addItems.1,
      itemsIsArray := itemsRes.2.1, maxItems := maxItems, minItems := minItems,
      uniqueItems := uniq } },
   addItems.2 ++ cont.2 ++ itemsRes.2.2)

/-- The String branch of `get_typed_node` (Parser.cpp:283-308). -/
def compileStringNode (id : String) (j : Json) : SNode × List PErr :=
  let pat := j.get "pattern"
  let patRes : Option String × List PErr :=
    if pat.isUndefined then (none, [])
    else match pat with
      | .str s => (some s, [])
      | _ => (none, [PErr.patternNotString])
  let minL := j.get "minLength"
  let minRes : Option Nat × List PErr :=
    if minL.isUndefined then (none, [])
    else if minL.isU32OrU64 then (some minL.toU32, [])
    else (none, [PErr.minLengthNotInt])
  let maxL := j.get "maxLength"
  let maxRes : Option Nat × List PErr :=
    if maxL.isUndefined then (none, [])
    else if maxL.isU32OrU64 then (some maxL.toU32, [])
    else (none, [PErr.maxLengthNotInt])
  (SNode.mk { id := id, tag := .stringT, strF := {
      maxLength := maxRes.1, minLength := minRes.1, pattern := patRes.1 } },
   patRes.2 ++ minRes.2 ++ maxRes.2)

/-- The Object branch of `get_typed_node` (Parser.cpp:324-431).  Note
that the guard before the `patternProperties` loop re-checks the
`properties` value (the source's line 350), and that a compiled
`additionalProperties` child replaces the default literal-true Boolean
node of the member initializer. -/
def compileObjectNode (gtn : Json → Option SNode × List PErr) (id : String) (j : Json) : SNode × List PErr :=
  let ps := j.getOr "properties" (Json.objOf [])
  let propsRes : List (String × SNode) × List PErr :=
    if ps.isObject then compileMembers gtn ps.objMembers
    else ([], [PErr.propertiesNotObject])
  let minProps := if (j.get "minProperties").isNumber then (j.get "minProperties").toU32 else 0
  let maxProps := if (j.get "maxProperties").isNumber then some ((j.get "maxProperties").toU32) else none
  let pp := j.getOr "patternProperties" (Json.objOf [])
  let ppRes : List SNode × List PErr :=
    if ps.isObject then compilePatternProps gtn pp.objMembers
    else ([], [PErr.patternPropertiesNotObject])
  let apv := j.get "additionalProperties"
  let apRes : Option SNode × List PErr :=
    if apv.isUndefined then (none, []) else gtn apv
  let ap : Option SNode :=
    match apRes.1 with
    | some c => some c
    | none => some defaultTrueBooleanNode
  let rq := j.getOr "required" (Json.arrOf [])
  let rqRes : List (String × SNode) × List String × List PErr :=
    if rq.isArray then processRequired rq.arrElems propsRes.1
    else (propsRes.1, [], [PErr.requiredNotArray])
  let dr := j.get "dependentRequired"
  let drRes : List (String × List String) × List PErr :=
    if dr.isUndefined then ([], [])
    else if dr.isObject then processDepReq dr.objMembers
    else ([], [PErr.dependentRequiredNotObject])
  let dsv := j.get "dependentSchemas"
  let dsRes : List (String × SNode) × List PErr :=
    if dsv.isUndefined then ([], [])
    else if dsv.isObject then compileMembers gtn dsv.objMembers
    else ([], [PErr.dependentSchemasNotObject])
  (SNode.mk { id := id, tag := .objectT, objF := {
      properties := rqRes.1, patternProperties := ppRes.1,
      maxProperties := maxProps, minProperties := minProps,
      requiredKeys := rqRes.2.1, dependentRequired := drRes.1,
      dependentSchemas := dsRes.1, additionalProperties := ap,
      propertyNames := none } },
   propsRes.2 ++ ppRes.2 ++ apRes.2 ++ rqRes.2.2 ++ drRes.2 ++ dsRes.2)

/-- `Parser::get_typed_node` (Parser.cpp:139-464), fuel-bounded.  The
returned node is `none` for a string/number schema value (no branch of
the source builds a node there) or on fuel exhaustion. -/
def getTypedNode : Nat → Json → Option SNode × List PErr
  | 0, _ => (none, [])
  | fuel + 1, j =>
    let gtn := getTypedNode fuel
    match j with
    | .arr xs =>
      let r := compileList gtn xs.toList
      (some (SNode.mk { tag := .arrayT, arrF := { items := r.1 } }), r.2)
    | .bool b => (some (SNode.mk { tag := .booleanT, boolValue := some b }), [])
    | .null => (some (SNode.mk { tag := .nullT }), [])
    | .obj _ =>
      let id := (j.get "$id").asStringOr ""
      let typeV := j.get "type"
      let refV := j.get "$ref"
      let errs0 : List PErr := if typeV.isArray then [.multipleTypes] else []
      let typeStr := typeV.asStringOr ""
      let base : SNode × List PErr :=
        if typeStr = "null" then (SNode.mk { tag := .nullT }, [])
        else if typeStr = "boolean" then (SNode.mk { tag := .booleanT }, [])
        else if numberHint typeStr j then (compileNumberNode id j, [])
        else if arrayHint typeStr j then compileArrayNode gtn id j
        else if stringHint typeStr j then compileStringNode id j
        else if j.objMembers.isEmpty then (SNode.mk { tag := .booleanT, boolValue := some true }, [])
        else if objectHint typeStr j then compileObjectNode gtn id j
        else (SNode.mk { tag := .undefinedT }, [])
      let ao := parseSubSchemaC gtn "allOf" j
      let an := parseSubSchemaC gtn "anyOf" j
      let oo := parseSubSchemaC gtn "oneOf" j
      let refStr : String :=
        match refV with
        | .str s => if s = "" then "" else setRefTransform s
        | _ => ""
      let notV := j.get "not"
      let notRes : Option SNode × List PErr :=
        if notV.isUndefined then (none, []) else gtn notV
      let n := base.1
      (some (SNode.mk { n.d with
          allOf := ao.1, anyOf := an.1, oneOf := oo.1,
          ref := refStr, typeStr := typeStr, notNode := notRes.1 }),
       errs0 ++ base.2 ++ ao.2 ++ an.2 ++ oo.2 ++ notRes.2)
    | _ => (none, [])

/-! The reference resolver (JsonSchemaNode.cpp:37-200). -/

/-- The base-class `resolve_reference_handle_identifer`
(JsonSchemaNode.cpp:124-155).  The cursor `cur` is the path of the node
`n` the walk currently sits on; a `some` result is the new cursor.  A
`none` result lets the Object/Array override continue (and is final for
the other variants). -/
def baseHandleIdentifer (root : SNode) (cur : List Step) (n : SNode) (tok : String) (σ : ResolverState) : Option (List Step) × ResolverState :=
  if tok = "#" && n.d.isRoot then (some cur, σ)
  else
    let anchorHit : Option (List Step) :=
      if strStartsWith tok "#" then lookupAssoc root.d.anchors (removeAllHash tok) else none
    match anchorHit with
    | some p => (some p, σ)
    | none =>
      if tok = "$defs" then (some cur, { σ with selDefs := true })
      else if σ.selDefs then
        let σ' := { σ with selDefs := false }
        match lookupAssoc n.d.defs tok with
        | some _ => (some (cur ++ [Step.defs tok]), σ')
        | none => (none, σ')
      else if n.d.id = tok then (some cur, σ)
      else (none, σ)

/-- `ObjectNode::resolve_reference_handle_identifer`
(JsonSchemaNode.cpp:157-177): the base handler first, then the
`properties` selection mode. -/
def objectHandleIdentifer (root : SNode) (cur : List Step) (n : SNode) (tok : String) (σ : ResolverState) : Option (List Step) × ResolverState :=
  let b := baseHandleIdentifer root cur n tok σ
  match b.1 with
  | some p => (some p, b.2)
  | none =>
    let σ := b.2
    if tok = "properties" then (some cur, { σ with selProps := true })
    else if σ.selProps then
      let σ' := { σ with selProps := false }
      match lookupAssoc n.d.objF.properties tok with
      | some _ => (some (cur ++ [Step.property tok]), σ')
      | none => (none, σ')
    else (none, σ)

/-- `ArrayNode::resolve_reference_handle_identifer`
(JsonSchemaNode.cpp:179-200): the base handler first, then the `items`
selection mode with a decimal index token. -/
def arrayHandleIdentifer (root : SNode) (cur : List Step) (n : SNode) (tok : String) (σ : ResolverState) : Option (List Step) × ResolverState :=
  let b := baseHandleIdentifer root cur n tok σ
  match b.1 with
  | some p => (some p, b.2)
  | none =>
    let σ := b.2
    if tok = "items" then (some cur, { σ with selItems := true })
    else if σ.selItems then
      let σ' := { σ with selItems := false }
      match parseUInt tok with
      | some i => if i < n.d.arrF.items.length then (some (cur ++ [Step.item i]), σ') else (none, σ')
      | none => (none, σ')
    else (none, σ)

/-- Virtual dispatch of `resolve_reference_handle_identifer` on the
node's dynamic type. -/
def resolveReferenceHandleIdentifer (root : SNode) (cur : List Step) (n : SNode) (tok : String) (σ : ResolverState) : Option (List Step) × ResolverState :=
  match n.d.tag with
  | .objectT => objectHandleIdentifer root cur n tok σ
  | .arrayT => arrayHandleIdentifer root cur n tok σ
  | _ => baseHandleIdentifer root cur n tok σ

/-- The token walk of `JsonSchemaNode::resolve_reference(ref, root)`
(JsonSchemaNode.cpp:94-122): tokens are handled left to right starting
at the root; a failed token aborts with `nullptr` (the flag state keeps
whatever the handlers left in it). -/
def resolveWalk (root : SNode) : List String → List Step → ResolverState → Option (List Step) × ResolverState
  | [], cur, σ => (some cur, σ)
  | tok :: rest, cur, σ =>
    match getNode root cur with
    | none => (none, σ)
    | some n =>
      let r := resolveReferenceHandleIdentifer root cur n tok σ
      match r.1 with
      | some cur' => resolveWalk root rest cur' r.2
      | none => (none, r.2)

/-- `JsonSchemaNode::resolve_reference(ref, root)`: split the ref on
slashes, unescape each token, walk. -/
def resolveRefStr (root : SNode) (ref : String) (σ : ResolverState) : Option (List Step) × ResolverState :=
  if ref = "" then (none, σ)
  else resolveWalk root ((splitSlash ref).map unescapeToken) [] σ

/-- Thread the resolve pass through a list of owned children. -/
def resolveList (res : SNode → ResolverState → SNode × ResolverState) : List SNode → ResolverState → List SNode × ResolverState
  | [], σ => ([], σ)
  | n :: rest, σ =>
    let r := res n σ
    let rs := resolveList res rest r.2
    (r.1 :: rs.1, rs.2)

/-- Thread the resolve pass through a keyed list of owned children. -/
def resolvePairs (res : SNode → ResolverState → SNode × ResolverState) : List (String × SNode) → ResolverState → List (String × SNode) × ResolverState
  | [], σ => ([], σ)
  | (k, n) :: rest, σ =>
    let r := res n σ
    let rs := resolvePairs res rest r.2
    ((k, r.1) :: rs.1, rs.2)

/-- Thread the resolve pass through an optional owned child. -/
def resolveOpt (res : SNode → ResolverState → SNode × ResolverState) : Option SNode → ResolverState → Option SNode × ResolverState
  | none, σ => (none, σ)
  | some n, σ =>
    let r := res n σ
    (some r.1, r.2)

/-- The recursive resolve pass (`JsonSchemaNode::resolve_reference(root)`
and the ObjectNode/ArrayNode overrides, JsonSchemaNode.cpp:37-78): each
node's non-empty ref is resolved into its `reference` path, then the
owned children are visited in the source's order (self, not, defs,
allOf, anyOf, oneOf; then for objects properties, patternProperties,
dependentSchemas, additionalProperties — `property_names` is not
visited by the source — and for arrays items, additionalItems,
contains).  Resolution reads only the original tree structure, so the
pre-pass root is passed for all lookups, exactly as the in-place C++
pass behaves. -/
def resolveNodePass (root : SNode) : Nat → SNode → ResolverState → SNode × ResolverState
  | 0, n, σ => (n, σ)
  | fuel + 1, n, σ =>
    let res := resolveNodePass root fuel
    let refRes : Option (List Step) × ResolverState :=
      if n.d.ref = "" then (n.d.reference, σ)
      else resolveRefStr root n.d.ref σ
    let notRes := resolveOpt res n.d.notNode refRes.2
    let defsRes := resolvePairs res n.d.defs notRes.2
    let aoRes := resolveList res n.d.allOf defsRes.2
    let anRes := resolveList res n.d.anyOf aoRes.2
    let ooRes := resolveList res n.d.oneOf anRes.2
    let d1 : NodeData SNode := { n.d with
      reference := refRes.1, notNode := notRes.1, defs := defsRes.1,
      allOf := aoRes.1, anyOf := anRes.1, oneOf := ooRes.1 }
    match n.d.tag with
    | .objectT =>
      let propsRes := resolvePairs res d1.objF.properties ooRes.2
      let ppRes := resolveList res d1.objF.patternProperties propsRes.2
      let dsRes := resolvePairs res d1.objF.dependentSchemas ppRes.2
      let apRes := resolveOpt res d1.objF.additionalProperties dsRes.2
      (SNode.mk { d1 with objF := { d1.objF with
          properties := propsRes.1, patternProperties := ppRes.1,
          dependentSchemas := dsRes.1, additionalProperties := apRes.1 } },
       apRes.2)
    | .arrayT =>
      let itemsRes := resolveList res d1.arrF.items ooRes.2
      let aiRes := resolveOpt res d1.arrF.additionalItems itemsRes.2
      let cRes := resolveOpt res d1.arrF.contains aiRes.2
      (SNode.mk { d1 with arrF := { d1.arrF with
          items := itemsRes.1, additionalItems := aiRes.1, contains := cRes.1 } },
       cRes.2)
    | _ => (SNode.mk d1, ooRes.2)

/-- The JsonValue returned by `Parser::run`: literal true, or the array
of accumulated parser-error strings. -/
inductive RunResult where
  | trueVal
  | errorList (errs : List PErr)
deriving DecidableEq

structure ParserOut where
  result : RunResult
  rootNode : Option SNode

def knownSchema : String := "https://json-schema.org/draft/2019-09/schema"

/-- `Parser::run(const JsonValue&)` (Parser.cpp:72-109).  A boolean root
becomes a literal Boolean node and succeeds immediately.  For an object
root the `$schema` value is compared through `as_string_or(known_schema)`
(so only a present *string* value can differ), the tree is compiled,
marked as root and the resolve pass runs; a non-empty error list is
returned as the error array, otherwise literal true.  For any other root
the source records an error and then asserts inside `as_object`; the
model returns just that error.  The process-wide resolver flag state is
threaded explicitly. -/
def parserRun (fuel : Nat) (j : Json) (σ : ResolverState) : ParserOut × ResolverState :=
  match j with
  | .bool b =>
    ({ result := .trueVal,
       rootNode := some (setRoot (SNode.mk { tag := .booleanT, boolValue := some b })) }, σ)
  | .obj _ =>
    let schemaErrs : List PErr :=
      if (j.get "$schema").asStringOr knownSchema ≠ knownSchema then [.unknownSchema] else []
    let r := getTypedNode fuel j
    match r.1 with
    | none =>
      ({ result := .errorList (schemaErrs ++ r.2 ++ [.rootNodeFail]), rootNode := none }, σ)
    | some n0 =>
      let rootN := setRoot n0
      let rr := resolveNodePass rootN fuel rootN σ
      let errs := schemaErrs ++ r.2
      ({ result := if errs.isEmpty then .trueVal else .errorList errs,
         rootNode := some rr.1 }, rr.2)
  | _ => ({ result := .errorList [.rootNotObject], rootNode := none }, σ)

/-! JSON-pointer computation (`JsonSchemaNode::calculate_json_pointer`,
JsonSchemaNode.cpp:706-794). -/

/-- The string a parent appends for the slot holding `child` reached by
step `s`.  This mirrors the pointer-identity searches of the source: the
object section (flag check, then the properties search), the array
section (contains, additionalItems, items in that order) and the common
section (anyOf, allOf, oneOf, not, $defs) run in sequence and each
append their fragment; slots the child does not occupy contribute
nothing.  Indices are rendered in decimal (the `StringBuilder::append`
of the index is an AK call; spec section 4.4 documents the
`items/<index>` rendering). -/
def labelOf (parent child : SNode) (s : Step) : String :=
  let objPart : String :=
    if parent.d.tag = .objectT then
      if child.d.identifiedByPattern then "patternProperties"
      else
        match s with
        | .property name =>
          match lookupAssoc parent.d.objF.properties name with
          | some _ => "properties/" ++ name
          | none => ""
        | _ => ""
    else if parent.d.tag = .arrayT then
      match s with
      | .containsStep => "contains"
      | .additionalItems => "additionalItems"
      | .item i => if i < parent.d.arrF.items.length then "items/" ++ natRepr i else ""
      | _ => ""
    else ""
  let commonPart : String :=
    match s with
    | .anyOf i => if i < parent.d.anyOf.length then "anyOf/" ++ natRepr i else ""
    | .allOf i => if i < parent.d.allOf.length then "allOf/" ++ natRepr i else ""
    | .oneOf i => if i < parent.d.oneOf.length then "oneOf/" ++ natRepr i else ""
    | .notStep => "not"
    | .defs name =>
      match lookupAssoc parent.d.defs name with
      | some _ => "$defs/" ++ name
      | none => ""
    | _ => ""
  objPart ++ commonPart

def pointerGo (n : SNode) (acc : String) : List Step → String
  | [] => acc
  | s :: rest =>
    match n.childAt s with
    | some c => pointerGo c (acc ++ "/" ++ labelOf n c s) rest
    | none => acc ++ "/!"

/-- The JSON pointer of the node at path `p`: the parentless root is
`#`, every other node appends a slash and its slot fragment to its
parent's pointer. -/
def pointerOf (root : SNode) (p : List Step) : String := pointerGo root "#" p

/-! The validator (`validate` and the variant overrides,
JsonSchemaNode.cpp:332-704). -/

/-- `validate_type` (JsonSchemaNode.cpp:332-358): a Boolean or Undefined
constraint matches every instance; Number matches integer and
floating-point instances. -/
def validateTypeOk (t : InstanceType) (j : Json) : Bool :=
  match t with
  | .arrayT => j.isArray
  | .objectT => j.isObject
  | .stringT => j.isString
  | .numberT => j.isNumber
  | .nullT => j.isNull
  | .booleanT => true
  | .undefinedT => true

/-- The `__serenity__` branch of `match_against_pattern`
(JsonSchemaNode.h:104-125 and JsonSchemaNode.cpp:796-819): the stored
pattern matches (everything) exactly when it is the literal `^.*$`; the
other platform branch delegates to the external POSIX regex engine,
which is outside the embedded sources. -/
def matchAgainstPattern (pat : String) (_value : String) : Bool :=
  pat = "^.*$"

/-- One step of the `oneOf` loop (JsonSchemaNode.cpp:412-420); the state
is (one, broken): a first success sets `one`, a second success clears it
and breaks. -/
def oneOfStep (st : Bool × Bool) (t : Bool) : Bool × Bool :=
  if st.2 then st
  else if !st.1 && t then (true, false)
  else if st.1 && t then (false, true)
  else st

/-- The result of the `oneOf` loop over the children's validation
results. -/
def oneOfRun (rs : List Bool) : Bool := (rs.foldl oneOfStep (false, false)).1

/-- Modelled from the spec: the Boolean-returning `parse_sub_schema`
overload called at JsonSchemaNode.cpp:439 is declared in Parser.h but
its definition is not among the sources under src/.  Spec section 4.3
item 9: when the instance is an object, any `$defs` it contains is
compiled as a sub-schema validity check (no side effect on the outer
schema), and validation fails if that subschema is itself ill-formed.
Ill-formedness is modelled as the compile yielding no node or parser
errors. -/
def defsCheckOk (fuel : Nat) (j : Json) : Bool :=
  if j.hasKey "$defs" then
    let r := getTypedNode fuel (j.get "$defs")
    r.1.isSome && r.2.isEmpty
  else true

/-- Truncation toward zero on rationals: the model of the C cast
`(u64)result` in the `multipleOf` check (JsonSchemaNode.cpp:527).  For
the non-negative in-range values for which the C cast is defined this
is that cast; the model extends it by truncation toward zero. -/
def ratTruncQ (q : Rat) : Rat := ((q.num.tdiv q.den : Int) : Rat)

/-- The `multipleOf` violation test of `NumberNode::validate`
(JsonSchemaNode.cpp:525-532): `result - (u64)result != 0` for
`result = instance / multipleOf`. -/
def multipleOfViolated (x k : Rat) : Bool := decide (x / k - ratTruncQ (x / k) ≠ 0)

/-- The `allOf` loop (and any other conjunction of indexed children
validated into the main collector). -/
def conjIdx (vn : List Step → SNode → Json → Bool × List VError) (path : List Step) (mk : Nat → Step) (j : Json) : List SNode → Nat → Bool × List VError
  | [], _ => (true, [])
  | c :: rest, i =>
    let r := vn (path ++ [mk i]) c j
    let rs := conjIdx vn path mk j rest (i + 1)
    (r.1 && rs.1, r.2 ++ rs.2)

/-- The `anyOf` loop: every child is validated (into a scratch buffer
the source then discards), and the results are OR-ed. -/
def anyIdx (vn : List Step → SNode → Json → Bool × List VError) (path : List Step) (mk : Nat → Step) (j : Json) : List SNode → Nat → Bool
  | [], _ => false
  | c :: rest, i =>
    let t := (vn (path ++ [mk i]) c j).1
    let r := anyIdx vn path mk j rest (i + 1)
    t || r

/-- The per-child validation results of an indexed child list (the
scratch error buffers of the `oneOf` loop are discarded by the source,
so only the booleans matter). -/
def resultsIdx (vn : List Step → SNode → Json → Bool × List VError) (path : List Step) (mk : Nat → Step) (j : Json) : List SNode → Nat → List Bool
  | [], _ => []
  | c :: rest, i => (vn (path ++ [mk i]) c j).1 :: resultsIdx vn path mk j rest (i + 1)

/-- The `required` member check loop (JsonSchemaNode.cpp:572-577). -/
def requiredScan (ptr : String) (j : Json) : List String → Bool × List VError
  | [] => (true, [])
  | k :: rest =>
    let r := requiredScan ptr j rest
    if j.hasKey k then r
    else (false, VError.requiredValueNotFound k ptr j :: r.2)

/-- The `dependentRequired` check loop (JsonSchemaNode.cpp:580-589). -/
def depReqScan (ptr : String) (j : Json) : List (String × List String) → Bool × List VError
  | [] => (true, [])
  | (k, deps) :: rest =>
    let here : Bool × List VError :=
      if j.hasKey k then
        deps.foldl (fun acc d =>
          if j.hasKey d then acc
          else (false, acc.2 ++ [VError.dependentRequiredNotFound d ptr j])) (true, [])
      else (true, [])
    let r := depReqScan ptr j rest
    (here.1 && r.1, here.2 ++ r.2)

/-- The `dependentSchemas` check loop (JsonSchemaNode.cpp:592-599). -/
def depSchScan (vn : List Step → SNode → Json → Bool × List VError) (path : List Step) (ptr : String) (j : Json) : List (String × SNode) → Bool × List VError
  | [] => (true, [])
  | (k, sub) :: rest =>
    let here : Bool × List VError :=
      if j.hasKey k then
        let r := vn (path ++ [Step.dependentSchema k]) sub j
        (r.1, r.2 ++ (if r.1 then [] else [VError.dependentSchemaInvalid ptr j]))
      else (true, [])
    let r := depSchScan vn path ptr j rest
    (here.1 && r.1, here.2 ++ r.2)

/-- The `patternProperties` match loop inside the member iteration
(JsonSchemaNode.cpp:609-615): every matching pattern child validates the
value.  Returns (someMatch, valid, errors). -/
def patternScan (vn : List Step → SNode → Json → Bool × List VError) (path : List Step) (key : String) (value : Json) : List SNode → Nat → Bool × Bool × List VError
  | [], _ => (false, true, [])
  | pp :: rest, i =>
    let r := patternScan vn path key value rest (i + 1)
    if matchAgainstPattern pp.d.pattern key then
      let v := vn (path ++ [Step.patternProperty i]) pp value
      (true, v.1 && r.2.1, v.2 ++ r.2.2)
    else r

/-- The instance-member iteration of `ObjectNode::validate`
(JsonSchemaNode.cpp:601-638): declared property, else pattern
properties, else `additionalProperties` (or the
property-not-in-schema error); then `propertyNames` on the key. -/
def memberScan (vn : List Step → SNode → Json → Bool × List VError) (path : List Step) (n : SNode) (ptr : String) (j : Json) : List (String × Json) → Bool × List VError
  | [] => (true, [])
  | (key, value) :: rest =>
    let slot : Bool × List VError :=
      match lookupAssoc n.d.objF.properties key with
      | some child => vn (path ++ [Step.property key]) child value
      | none =>
        let pr := patternScan vn path key value n.d.objF.patternProperties 0
        if pr.1 then (pr.2.1, pr.2.2)
        else
          match n.d.objF.additionalProperties with
          | some ap =>
            let r := vn (path ++ [Step.additionalProperties]) ap value
            (r.1, r.2 ++ (if r.1 then [] else [VError.additionalPropertyInvalid ptr j]))
          | none => (false, [VError.propertyNotInSchema key ptr j])
    let pnRes : Bool × List VError :=
      match n.d.objF.propertyNames with
      | some pnn =>
        let r := vn (path ++ [Step.propertyNames]) pnn (.str key)
        (r.1, r.2 ++ (if r.1 then [] else [VError.propertyNamesInvalid ptr j]))
      | none => (true, [])
    let r := memberScan vn path n ptr j rest
    (slot.1 && pnRes.1 && r.1, slot.2 ++ pnRes.2 ++ r.2)

/-- The element iteration of `ArrayNode::validate`
(JsonSchemaNode.cpp:663-695): the uniqueness check (the AK 32-bit hash
of the element's canonical string form is modelled as the element value
itself, i.e. as a collision-free hash), then tuple/single items
validation, then the `contains` attempt into a discarded scratch
buffer.  Returns (valid, errors, containsSatisfied). -/
def arrayLoop (vn : List Step → SNode → Json → Bool × List VError) (path : List Step) (af : ArrF SNode) (ptr : String) (jarr : Json) : List Json → Nat → List Json → Bool → Bool × List VError × Bool
  | [], _, _, cv => (true, [], cv)
  | v :: rest, i, seen, cv =>
    let uniqRes : Bool × List VError :=
      if af.uniqueItems && seen.contains v then (false, [VError.uniqueItemsViolation v ptr jarr])
      else (true, [])
    let seen' := if af.uniqueItems then v :: seen else seen
    let itemRes : Bool × List VError :=
      if af.itemsIsArray then
        match af.items.get? i with
        | some c => vn (path ++ [Step.item i]) c v
        | none =>
          match af.additionalItems with
          | some ai => vn (path ++ [Step.additionalItems]) ai v
          | none => (true, [])
      else
        match af.items with
        | c :: _ => vn (path ++ [Step.item 0]) c v
        | [] => (true, [])
    let cv' : Bool :=
      match af.contains with
      | some c => if !cv then (vn (path ++ [Step.containsStep]) c v).1 else cv
      | none => cv
    let r := arrayLoop vn path af ptr jarr rest (i + 1) seen' cv'
    (uniqRes.1 && itemRes.1 && r.1, uniqRes.2 ++ itemRes.2 ++ r.2.1, r.2.2)

/-- The post-gate body of `JsonSchemaNode::validate`
(JsonSchemaNode.cpp:379-445): allOf, the resolved reference, anyOf
(scratch buffer discarded, summary error on failure), not (inner buffer
surfaced on failure), oneOf (summary error), enum (summary error), and
the instance-side `$defs` re-check; the result is
`valid & any & one & enum_matched` with the errors in emission order.
`vn` is the validator at the next lower fuel and `fuelDefs` the fuel
handed to the instance-`$defs` compile. -/
def validateCommonPart (vn : List Step → SNode → Json → Bool × List VError) (fuelDefs : Nat) (root : SNode) (path : List Step) (n : SNode) (j : Json) : Bool × List VError :=
  let ptr := pointerOf root path
  let ao := conjIdx vn path Step.allOf j n.d.allOf 0
  let refRes : Bool × List VError :=
    match n.d.reference with
    | some rp =>
      match getNode root rp with
      | some m => vn rp m j
      | none => (true, [])
    | none => (true, [])
  let anyRes : Bool × List VError :=
    if n.d.anyOf.isEmpty then (true, [])
    else
      let any := anyIdx vn path Step.anyOf j n.d.anyOf 0
      (any, if any then [] else [.anyOfNoMatch ptr j])
  let notRes : Bool × List VError :=
    match n.d.notNode with
    | some m =>
      let r := vn (path ++ [Step.notStep]) m j
      if r.1 then (false, r.2) else (true, [])
    | none => (true, [])
  let oneRes : Bool × List VError :=
    if n.d.oneOf.isEmpty then (true, [])
    else
      let one := oneOfRun (resultsIdx vn path Step.oneOf j n.d.oneOf 0)
      (one, if one then [] else [.oneOfNoMatch ptr j])
  let enumRes : Bool × List VError :=
    if n.d.enumItems.isEmpty then (true, [])
    else
      let m := n.d.enumItems.any (fun it => jsonEquals it j)
      (m, if m then [] else [.enumNoMatch ptr j])
  let defsRes : Bool × List VError :=
    if j.isObject then
      if defsCheckOk fuelDefs j then (true, [])
      else (false, [.defsSubschemaInvalid ptr j])
    else (true, [])
  (ao.1 && refRes.1 && notRes.1 && defsRes.1 && anyRes.1 && oneRes.1 && enumRes.1,
   ao.2 ++ refRes.2 ++ anyRes.2 ++ notRes.2 ++ oneRes.2 ++ enumRes.2 ++ defsRes.2)

/-- `JsonSchemaNode::validate` with the variant overrides
(JsonSchemaNode.cpp:360-704), fuel-bounded (the source recursion is
unbounded and cyclic `$ref` chains overflow the stack; an exhausted
fuel budget yields a vacuous success, which no concrete run below
reaches).  `BooleanNode::validate` does not call the base class and is
dispatched first; `NullNode`/`UndefinedNode` have no override body
among the sources under src/ and spec section 4.3 gives them no checks
beyond the common header logic, so they run exactly the common part.
The type gate and the required gate return early exactly as the base
class does; when the gate fires the instance cannot match the variant's
type either, so the variant sections' own instance-type guards make
this equivalent to the source's control flow. -/
def validateNode (root : SNode) : Nat → List Step → SNode → Json → Bool × List VError
  | 0, _, _, _ => (true, [])
  | fuel + 1, path, n, j =>
    let vn := validateNode root fuel
    if n.d.tag = .booleanT then
      (match n.d.boolValue with
       | some v => v
       | none => j.isBool, [])
    else
      let ptr := pointerOf root path
      if n.d.typeStr ≠ "" && !validateTypeOk n.d.tag j then
        (false, [.typeValidationFailed j n.d.tag])
      else if n.d.required && j.isUndefined then
        (false, [.requiredNotPresent ptr j])
      else
        let common := validateCommonPart vn fuel root path n j
        let commonB := common.1
        let commonE := common.2
        match n.d.tag with
        | .stringT =>
          if !j.isString then (commonB, commonE)
          else
            let s := match j with | .str s => s | _ => ""
            let patRes : Bool × List VError :=
              match n.d.strF.pattern with
              | some p =>
                if matchAgainstPattern p s then (true, [])
                else (false, [.stringPatternNoMatch ptr j])
              | none => (true, [])
            let maxRes : Bool × List VError :=
              match n.d.strF.maxLength with
              | some m => if s.length > m then (false, [.maxLengthViolation ptr j]) else (true, [])
              | none => (true, [])
            let minRes : Bool × List VError :=
              match n.d.strF.minLength with
              | some m => if s.length < m then (false, [.minLengthViolation ptr j]) else (true, [])
              | none => (true, [])
            (commonB && patRes.1 && maxRes.1 && minRes.1,
             commonE ++ patRes.2 ++ maxRes.2 ++ minRes.2)
        | .numberT =>
          if !j.isNumber then (commonB, commonE)
          else
            let x := j.toNumberQ
            let intRes : Bool × List VError :=
              if n.d.typeStr = "integer" && !j.isIntRepr then (false, [.numberNotInteger ptr j])
              else (true, [])
            let minRes : Bool × List VError :=
              match n.d.numF.minimum with
              | some b => if x < b then (false, [.minimumInvalid x b ptr j]) else (true, [])
              | none => (true, [])
            let maxRes : Bool × List VError :=
              match n.d.numF.maximum with
              | some b => if x > b then (false, [.maximumInvalid x b ptr j]) else (true, [])
              | none => (true, [])
            let exMinRes : Bool × List VError :=
              match n.d.numF.exclusiveMinimum with
              | some b => if x ≤ b then (false, [.exclusiveMinimumInvalid x b ptr j]) else (true, [])
              | none => (true, [])
            let exMaxRes : Bool × List VError :=
              match n.d.numF.exclusiveMaximum with
              | some b => if x ≥ b then (false, [.exclusiveMaximumInvalid x b ptr j]) else (true, [])
              | none => (true, [])
            let mulRes : Bool × List VError :=
              match n.d.numF.multipleOf with
              | some k =>
                if multipleOfViolated x k then (false, [.multipleOfInvalid x k ptr j])
                else (true, [])
              | none => (true, [])
            (commonB && intRes.1 && minRes.1 && maxRes.1 && exMinRes.1 && exMaxRes.1 && mulRes.1,
             commonE ++ intRes.2 ++ minRes.2 ++ maxRes.2 ++ exMinRes.2 ++ exMaxRes.2 ++ mulRes.2)
        | .objectT =>
          if !j.isObject then (commonB, commonE)
          else
            let size := j.objSize
            let minRes : Bool × List VError :=
              if 0 < n.d.objF.minProperties && size < n.d.objF.minProperties then
                (false, [.minPropertiesNotMet n.d.objF.minProperties size ptr j])
              else (true, [])
            let maxRes : Bool × List VError :=
              match n.d.objF.maxProperties with
              | some m => if size > m then (false, [.maxPropertiesNotMet m size ptr j]) else (true, [])
              | none => (true, [])
            let reqRes := requiredScan ptr j n.d.objF.requiredKeys
            let depReqRes := depReqScan ptr j n.d.objF.dependentRequired
            let depSchRes := depSchScan vn path ptr j n.d.objF.dependentSchemas
            let memRes := memberScan vn path n ptr j j.objMembers
            (commonB && minRes.1 && maxRes.1 && reqRes.1 && depReqRes.1 && depSchRes.1 && memRes.1,
             commonE ++ minRes.2 ++ maxRes.2 ++ reqRes.2 ++ depReqRes.2 ++ depSchRes.2 ++ memRes.2)
        | .arrayT =>
          if !j.isArray then (commonB, commonE)
          else
            let vs := j.arrElems
            let maxViolated : Bool :=
              match n.d.arrF.maxItems with
              | some m => vs.length > m
              | none => false
            if vs.length < n.d.arrF.minItems then (false, commonE ++ [.minItemsViolation])
            else if maxViolated then (false, commonE ++ [.maxItemsViolation])
            else
              let lr := arrayLoop vn path n.d.arrF ptr j vs 0 [] false
              let contRes : Bool × List VError :=
                match n.d.arrF.contains with
                | some _ => (lr.2.2, if lr.2.2 then [] else [.arrayContainsViolation ptr j])
                | none => (true, [])
              (commonB && lr.1 && contRes.1, commonE ++ lr.2.1 ++ contRes.2)
        | _ => (commonB, commonE)

structure ValidationResult where
  success : Bool
  errors : List VError
deriving DecidableEq

/-- Modelled from the spec: `Validator::run` is declared in Validator.h
but its definition is not among the sources under src/.  Spec sections
4.3 and 6: validation runs the root node over the instance; the
instance is valid exactly when the root's validate returns true, and
the accumulated errors are returned alongside. -/
def validatorRun (root : SNode) (fuel : Nat) (j : Json) : ValidationResult :=
  let r := validateNode root fuel [] root j
  { success := r.1, errors := r.2 }

/-! Auxiliary definitions for the claim analyses: the dead-code enum
helper, the descendant relation, the well-formed-path predicate for the
pointer round trip, and the concrete schemas of the claims. -/

/-- `JsonSchemaNode::append_enum_item` (JsonSchemaNode.h:82-91): append
a literal value unless an equal one is already present.  The function
exists in the sources but `get_typed_node` never calls it. -/
def appendEnumItem (items : List Json) (it : Json) : List Json × Bool :=
  if items.any (fun x => jsonEquals it x) then (items, false)
  else (items ++ [it], true)

/-- `b` is an immediate owned child of `a`. -/
def childRel (a b : SNode) : Prop := b ∈ a.children

/-- `m` is a node of the tree rooted at `n` (n itself included). -/
def Desc (n m : SNode) : Prop := Relation.ReflTransGen childRel n m

/-- The C10 invariant: an Object node carries an
`additionalProperties` child. -/
def apOk (n : SNode) : Prop :=
  n.d.tag = .objectT → n.d.objF.additionalProperties.isSome = true

/-- A property/item name that survives the pointer round trip: nonempty,
not `#`-prefixed (anchor syntax), not a resolver keyword, and free of
the separator and escape characters. -/
def stepNameOk (name : String) : Bool :=
  name ≠ "" && !strStartsWith name "#" && name ≠ "$defs" && name ≠ "properties" &&
    !name.data.contains '/' && !name.data.contains '~'

/-- Paths whose computed JSON pointer the resolver can walk back: chains
of `properties/<name>` and `items/<index>` edges between nodes carrying
no `$id`, with names satisfying `stepNameOk` and children not flagged as
pattern-identified (those label their pointer `patternProperties`, which
the claim itself excludes). -/
def pathOk (root : SNode) : SNode → List Step → Bool
  | _, [] => true
  | m, .property name :: rest =>
    m.d.tag = .objectT && m.d.id = "" && stepNameOk name &&
      (match lookupAssoc m.d.objF.properties name with
       | some c => !c.d.identifiedByPattern && pathOk root c rest
       | none => false)
  | m, .item i :: rest =>
    m.d.tag = .arrayT && m.d.id = "" &&
      (match m.d.arrF.items.get? i with
       | some c => pathOk root c rest
       | none => false)
  | _, _ => false

/-- The C1 scenario schema (spec section 8, scenario 6). -/
def c1schema : Json := Json.objOf [
  ("$defs", Json.objOf [("pos", Json.objOf [("type", .str "integer"), ("minimum", .int 1)])]),
  ("properties", Json.objOf [("n", Json.objOf [("$ref", .str "#/$defs/pos")])]),
  ("type", .str "object")]

/-- The compiled and resolved C1 tree. -/
def c1root : SNode := ((parserRun 20 c1schema cleanState).1.rootNode).getD defaultTrueBooleanNode

/-- A schema whose only member is an `enum` (C2). -/
def c2schema : Json := Json.objOf [("enum", Json.arrOf [.int 1, .int 2])]

def c2root : SNode := ((parserRun 20 c2schema cleanState).1.rootNode).getD defaultTrueBooleanNode

/-- An Array node with `uniqueItems` set and `minItems` 3 (C5). -/
def c5node : SNode := SNode.mk { tag := .arrayT, arrF := { minItems := 3, uniqueItems := true } }

/-- A sub-schema carrying only `additionalItems` (C6). -/
def c6json : Json := Json.objOf [("additionalItems", .bool false)]

/-- A root schema whose `$schema` member is a number (C7). -/
def c7json : Json := Json.objOf [("$schema", Json.int 5)]

/-- A schema with a single `allOf` child (C8). -/
def c8schema : Json := Json.objOf [("allOf", Json.arrOf [Json.objOf [("type", .str "string")]])]

def c8root : SNode := ((parserRun 20 c8schema cleanState).1.rootNode).getD defaultTrueBooleanNode

/-- The C9 schema: resolving `#/properties` (the ref of property `q`)
leaves the process-wide `selected_properties` flag set, so in a second
compile of the same document the previously unresolvable ref `p` of the
`allOf` child suddenly resolves. -/
def c9schema : Json := Json.objOf [
  ("type", .str "object"),
  ("properties", Json.objOf [
    ("p", Json.objOf [("type", .str "string")]),
    ("q", Json.objOf [("$ref", .str "#/properties")])]),
  ("allOf", Json.arrOf [Json.objOf [("$ref", .str "p")]])]

def c9run1 : ParserOut × ResolverState := parserRun 20 c9schema cleanState

def c9run2 : ParserOut × ResolverState := parserRun 20 c9schema c9run1.2

/-- A node with two always-succeeding `oneOf` children (C3 witness). -/
def c3wnode : SNode :=
  SNode.mk { tag := .undefinedT, oneOf := [defaultTrueBooleanNode, defaultTrueBooleanNode] }

/-- Proof scaffolding for C5: the pure content of the uniqueness scan of
`arrayLoop` (success flag), extracted for clean induction. -/
def uniqueScanOk (seen : List Json) : List Json → Bool
  | [] => true
  | v :: rest => !(seen.contains v) && uniqueScanOk (v :: seen) rest

/-- Proof scaffolding for C5: the uniqueness errors of `arrayLoop`. -/
def uniqueScanErrs (ptr : String) (jarr : Json) (seen : List Json) : List Json → List VError
  | [] => []
  | v :: rest =>
    (if seen.contains v then [VError.uniqueItemsViolation v ptr jarr] else []) ++
      uniqueScanErrs ptr jarr (v :: seen) rest

/-- The concrete Array node of the uniqueItems scenario: `type: array`
with `uniqueItems: true` and no other keyword. -/
def c5wnode : SNode :=
  SNode.mk { tag := .arrayT, typeStr := "array", arrF := { uniqueItems := true } }

/-- Proof scaffolding for C8: the slash-separated tokens the computed
pointer of a `pathOk` path carries after the leading `#`. -/
def pathTokens : SNode → List Step → List String
  | _, [] => []
  | m, .property name :: rest =>
    (match lookupAssoc m.d.objF.properties name with
     | some c => "properties" :: name :: pathTokens c rest
     | none => [])
  | m, .item i :: rest =>
    (match m.d.arrF.items.get? i with
     | some c => "items" :: natRepr i :: pathTokens c rest
     | none => [])
  | _, _ => []

/-- The concrete tree of the C8 witness: a root object with a single
declared property. -/
def c8wroot : SNode :=
  setRoot (SNode.mk
    { tag := .objectT, objF := { properties := [("a", SNode.mk { tag := .stringT })] } })

/-- Proof scaffolding for C10: every node of the tree rooted at `n`
satisfies the `additionalProperties` invariant. -/
def allApOk (n : SNode) : Prop := ∀ m, Desc n m → apOk m

/-- Proof scaffolding for C10: the error list contains no
"property not in schema definition" error. -/
def noPNIS (errs : List VError) : Prop :=
  ∀ k p q, VError.propertyNotInSchema k p q ∉ errs

/-- The C10 witness schema: an object with one declared property and no
`additionalProperties` member. -/
def c10schema : Json := Json.objOf [
  ("type", .str "object"),
  ("properties", Json.objOf [("a", Json.objOf [("type", .str "string")])])]

/-- The compiled C10 witness tree. -/
def c10t : SNode := ((parserRun 5 c10schema cleanState).1.rootNode).getD defaultTrueBooleanNode

/-! Theorems.  Each claim of the specification audit is settled by one
named theorem below (with a witness or counterexample where the claim's
status requires one); the remaining theorems are supporting lemmas. -/

set_option maxRecDepth 100000

theorem ratTruncQ_intCast (m : Int) : ratTruncQ (m : Rat) = (m : Rat) := by
  unfold ratTruncQ
  rw [Rat.num_intCast, Rat.den_intCast]
  norm_num [Int.tdiv_one]

theorem multipleOfViolated_eq_false_iff (x k : Rat) (hk : 0 < k) :
    multipleOfViolated x k = false ↔ ∃ m : Int, x = (m : Rat) * k := by
  unfold multipleOfViolated
  simp only [decide_eq_false_iff_not, not_not, sub_eq_zero]
  constructor
  · intro h
    refine ⟨(x / k).num.tdiv (x / k).den, ?_⟩
    have hx : x / k = ratTruncQ (x / k) := h
    rw [div_eq_iff (ne_of_gt hk)] at hx
    exact hx
  · rintro ⟨m, hm⟩
    have : x / k = (m : Rat) := by
      rw [hm, mul_div_assoc, div_self (ne_of_gt hk), mul_one]
    rw [this, ratTruncQ_intCast]

/-- C1: the spec's `$defs`/`$ref` scenario evaluated on the embedded
code.  `get_typed_node` never reads `$defs`, so the compiled root's defs
map is empty, the `#/$defs/pos` reference of property `n` stays
unresolved, and all three instances of the scenario — including
`{"n": 0}` and `{"n": "x"}`, which the claim requires to fail —
validate successfully. -/
theorem claim_C1 :
    (parserRun 20 c1schema cleanState).1.result = RunResult.trueVal ∧
    ((getTypedNode 20 c1schema).1.map (fun n => n.d.defs.length)) = some 0 ∧
    (getNode c1root [Step.property "n"]).map (fun n => n.d.reference) = some none ∧
    (validatorRun c1root 20 (Json.objOf [("n", Json.int 3)])).success = true ∧
    (validatorRun c1root 20 (Json.objOf [("n", Json.int 0)])).success = true ∧
    (validatorRun c1root 20 (Json.objOf [("n", Json.str "x")])).success = true := by
  exact ⟨by decide, by decide, by decide, by decide, by decide, by decide⟩

/-- C2: compilation of a schema whose only member is `enum` leaves the
node's `enum_items` empty — `get_typed_node` never reads `enum` and
never calls the (dead) `append_enum_item` helper, even though that
helper does drop duplicates as described — so validation accepts an
instance that matches no enum entry, with no error at all. -/
theorem claim_C2 :
    ((getTypedNode 20 c2schema).1.map (fun n => n.d.enumItems)) = some [] ∧
    appendEnumItem [Json.int 1] (Json.int 1) = ([Json.int 1], false) ∧
    (validatorRun c2root 20 (Json.int 5)).success = true ∧
    (validatorRun c2root 20 (Json.int 5)).errors = [] := by
  exact ⟨by decide, by decide, by decide, by decide⟩

theorem oneOfFoldl_broken (rs : List Bool) (b : Bool) :
    rs.foldl oneOfStep (b, true) = (b, true) := by
  induction rs with
  | nil => rfl
  | cons t rest ih => simpa [oneOfStep] using ih

theorem oneOfFoldl_one (rs : List Bool) :
    rs.foldl oneOfStep (true, false) =
      if rs.count true = 0 then (true, false) else (false, true) := by
  induction rs with
  | nil => rfl
  | cons t rest ih =>
    cases t
    · simpa [oneOfStep, List.count_cons] using ih
    · simp [oneOfStep, oneOfFoldl_broken, List.count_cons]

theorem oneOfFoldl_zero (rs : List Bool) :
    rs.foldl oneOfStep (false, false) =
      if rs.count true = 0 then (false, false)
      else if rs.count true = 1 then (true, false) else (false, true) := by
  induction rs with
  | nil => rfl
  | cons t rest ih =>
    cases t
    · simpa [oneOfStep, List.count_cons] using ih
    · have h1 : oneOfStep (false, false) true = (true, false) := rfl
      rw [List.foldl_cons, h1, oneOfFoldl_one]
      rcases Nat.eq_zero_or_pos (rest.count true) with h | h
      · simp [List.count_cons, h]
      · have h1x : rest.count true ≠ 0 := Nat.pos_iff_ne_zero.mp h
        have h2 : ¬(rest.count true + 1 = 0) := by omega
        have h3 : ¬(rest.count true + 1 = 1) := by omega
        simp [List.count_cons, h1x, h2, h3]

theorem oneOfRun_iff (rs : List Bool) : oneOfRun rs = true ↔ rs.count true = 1 := by
  unfold oneOfRun
  rw [oneOfFoldl_zero]
  rcases Nat.eq_zero_or_pos (rs.count true) with h | h
  · simp [h]
  · have h1 : rs.count true ≠ 0 := Nat.pos_iff_ne_zero.mp h
    by_cases h2 : rs.count true = 1 <;> simp [h1, h2]

theorem validateCommonPart_oneOf_fail (vn : List Step → SNode → Json → Bool × List VError)
    (fd : Nat) (root : SNode) (path : List Step) (n : SNode) (j : Json)
    (hne : n.d.oneOf ≠ [])
    (hfail : oneOfRun (resultsIdx vn path Step.oneOf j n.d.oneOf 0) = false) :
    (validateCommonPart vn fd root path n j).1 = false ∧
    VError.oneOfNoMatch (pointerOf root path) j ∈ (validateCommonPart vn fd root path n j).2 := by
  unfold validateCommonPart
  have hemp : n.d.oneOf.isEmpty = false := by
    cases h : n.d.oneOf with
    | nil => exact absurd h hne
    | cons a l => rfl
  simp only [hemp, Bool.false_eq_true, if_false, hfail]
  constructor
  · simp
  · simp [List.mem_append]

set_option maxHeartbeats 1000000 in
theorem validateNode_common_propagate (root : SNode) (f : Nat) (path : List Step) (n : SNode) (j : Json)
    (htag : n.d.tag ≠ InstanceType.booleanT)
    (hty : n.d.typeStr = "" ∨ validateTypeOk n.d.tag j = true)
    (hreq : n.d.required = false ∨ j.isUndefined = false) :
    ((validateCommonPart (validateNode root f) f root path n j).1 = false →
      (validateNode root (f + 1) path n j).1 = false) ∧
    (∀ e, e ∈ (validateCommonPart (validateNode root f) f root path n j).2 →
      e ∈ (validateNode root (f + 1) path n j).2) := by
  have e1 : (decide ¬(n.d.typeStr = "") && !validateTypeOk n.d.tag j) = false := by
    rcases hty with h | h
    · simp [h]
    · simp [h]
  have e2 : (n.d.required && j.isUndefined) = false := by
    rcases hreq with h | h <;> simp [h]
  constructor
  · intro hc
    simp only [validateNode]
    rw [if_neg htag]
    simp only [ne_eq, e1, Bool.false_eq_true, if_false, e2]
    rcases ht : n.d.tag with _ | _ | _ | _ | _ | _ | _ <;> simp only [ht]
    · exact hc
    · exact hc
    · exact hc
    · split
      · exact hc
      · simp [hc]
    · split
      · exact hc
      · split
        · rfl
        · split
          · rfl
          · simp [hc]
    · split
      · exact hc
      · simp [hc]
    · split
      · exact hc
      · simp [hc]
  · intro e he
    simp only [validateNode]
    rw [if_neg htag]
    simp only [ne_eq, e1, Bool.false_eq_true, if_false, e2]
    rcases ht : n.d.tag with _ | _ | _ | _ | _ | _ | _ <;> simp only [ht]
    · exact he
    · exact he
    · exact he
    · split
      · exact he
      · simp only [List.mem_append]
        exact Or.inl (Or.inl (Or.inl (Or.inl (Or.inl (Or.inl he)))))
    · split
      · exact he
      · split
        · simp only [List.mem_append]
          exact Or.inl he
        · split
          · simp only [List.mem_append]
            exact Or.inl he
          · simp only [List.mem_append]
            exact Or.inl (Or.inl he)
    · split
      · exact he
      · simp only [List.mem_append]
        exact Or.inl (Or.inl (Or.inl (Or.inl (Or.inl (Or.inl he)))))
    · split
      · exact he
      · simp only [List.mem_append]
        exact Or.inl (Or.inl (Or.inl he))

/-- C3: for a node whose `oneOf` list is non-empty — on a variant that
runs the common header logic (so not a Boolean node) and an instance
that passes the type and required gates — the `oneOf` check of validate
succeeds exactly when exactly one child schema validates the instance
successfully, and when it does not succeed a "oneOf" error is added to
the collector and the node's validation returns false. -/
theorem claim_C3 (root : SNode) (f : Nat) (path : List Step) (n : SNode) (j : Json)
    (hne : n.d.oneOf ≠ []) (htag : n.d.tag ≠ InstanceType.booleanT)
    (hty : n.d.typeStr = "" ∨ validateTypeOk n.d.tag j = true)
    (hreq : n.d.required = false ∨ j.isUndefined = false) :
    (oneOfRun (resultsIdx (validateNode root f) path Step.oneOf j n.d.oneOf 0) = true ↔
      (resultsIdx (validateNode root f) path Step.oneOf j n.d.oneOf 0).count true = 1) ∧
    (oneOfRun (resultsIdx (validateNode root f) path Step.oneOf j n.d.oneOf 0) = false →
      (validateNode root (f + 1) path n j).1 = false ∧
      VError.oneOfNoMatch (pointerOf root path) j ∈ (validateNode root (f + 1) path n j).2) := by
  refine ⟨oneOfRun_iff _, fun hfail => ?_⟩
  have h := validateCommonPart_oneOf_fail (validateNode root f) f root path n j hne hfail
  have hp := validateNode_common_propagate root f path n j htag hty hreq
  exact ⟨hp.1 h.1, hp.2 _ h.2⟩

/-- C3 witness: a node with two literally-true `oneOf` children; both
children succeed on instance 1, so the count is 2, the check fails, the
error is recorded and validation fails. -/
theorem claim_C3_witness :
    (oneOfRun (resultsIdx (validateNode c3wnode 5) [] Step.oneOf (Json.int 1) c3wnode.d.oneOf 0) = true ↔
      (resultsIdx (validateNode c3wnode 5) [] Step.oneOf (Json.int 1) c3wnode.d.oneOf 0).count true = 1) ∧
    (oneOfRun (resultsIdx (validateNode c3wnode 5) [] Step.oneOf (Json.int 1) c3wnode.d.oneOf 0) = false →
      (validateNode c3wnode (5 + 1) [] c3wnode (Json.int 1)).1 = false ∧
      VError.oneOfNoMatch (pointerOf c3wnode []) (Json.int 1) ∈
        (validateNode c3wnode (5 + 1) [] c3wnode (Json.int 1)).2) := by
  exact claim_C3 c3wnode 5 [] c3wnode (Json.int 1)
    (by simp [c3wnode, SNode.d]) (by decide) (Or.inl (by decide)) (Or.inl (by decide))

/-- C4: for a positive `multipleOf` value `k`, the `multipleOf`
assertion of `NumberNode::validate` passes exactly when the instance is
an integer multiple of `k` (doubles modelled as exact rationals, the
`(u64)` cast as truncation toward zero); and the compiler ignores a
non-positive `multipleOf` value. -/
theorem claim_C4 :
    (∀ x k : Rat, 0 < k → (multipleOfViolated x k = false ↔ ∃ m : Int, x = (m : Rat) * k)) ∧
    (∀ j : Json, (j.get "multipleOf").toNumberQ ≤ 0 →
      (compileNumberNode ((j.get "$id").asStringOr "") j).d.numF.multipleOf = none) := by
  constructor
  · exact fun x k hk => multipleOfViolated_eq_false_iff x k hk
  · intro j hm
    unfold compileNumberNode
    simp only [SNode.d]
    split
    · simp only [not_lt.mpr hm, if_false]
    · rfl

/-- C4 witness: 6 is a multiple of 3, and a negative `multipleOf` in a
schema object is dropped at compile time. -/
theorem claim_C4_witness :
    (0 : Rat) < 3 ∧ multipleOfViolated 6 3 = false ∧
    (Json.objOf [("multipleOf", Json.int (-2))]).get "multipleOf" = Json.int (-2) ∧
    (compileNumberNode "" (Json.objOf [("multipleOf", Json.int (-2))])).d.numF.multipleOf = none := by
  refine ⟨by norm_num, ?_, by decide, ?_⟩
  · exact (claim_C4.1 6 3 (by norm_num)).mpr ⟨2, by norm_num⟩
  · have h := claim_C4.2 (Json.objOf [("multipleOf", Json.int (-2))])
    apply h
    show ((Json.objOf [("multipleOf", Json.int (-2))]).get "multipleOf").toNumberQ ≤ 0
    norm_num [Json.get, Json.objOf, Json.objMembers, JsonMembers.ofList, JsonMembers.toList,
      lookupAssoc, Json.toNumberQ, List.find?]

/-- C5 counterexample: an Array node with `uniqueItems` set and
`minItems` 3, validated against `[1, 1]`: the pair of equal elements
notwithstanding, validation returns early with only the minItems error
and no uniqueItems error is emitted, so "fails with a uniqueItems error
iff some pair is JSON-equal" is false as stated. -/
theorem claim_C5_counterexample :
    ¬ ([Json.int 1, Json.int 1].Nodup) ∧
    (validatorRun c5node 20 (Json.arrOf [Json.int 1, Json.int 1])).success = false ∧
    (validatorRun c5node 20 (Json.arrOf [Json.int 1, Json.int 1])).errors = [VError.minItemsViolation] := by
  exact ⟨by decide, by decide, by decide⟩

/-- C6 counterexample: a sub-schema whose only key is `additionalItems`
is classified as Undefined, not Array — the source's condition counts
`additionalItems` only together with `items`. -/
theorem claim_C6_counterexample :
    ((c6json.get "type").asStringOr "" = "") ∧
    numberHint "" c6json = false ∧
    ((getTypedNode 20 c6json).1.map (fun n => n.d.tag)) = some InstanceType.undefinedT := by
  exact ⟨by decide, by decide, by decide⟩

theorem arrayHint_iff (ts : String) (j : Json) :
    arrayHint ts j = true ↔
      (ts = "array" ∨ j.hasKey "items" = true ∨ j.hasKey "unevaluatedItems" = true ∨
       j.hasKey "maxItems" = true ∨ j.hasKey "minItems" = true ∨ j.hasKey "uniqueItems" = true ∨
       j.hasKey "contains" = true ∨ j.hasKey "maxContains" = true ∨ j.hasKey "minContains" = true) := by
  unfold arrayHint
  simp only [Bool.or_eq_true, Bool.and_eq_true, decide_eq_true_eq]
  tauto

/-- C6 (amended): a JSON-object sub-schema not caught by the earlier
classification rules is compiled to the Array variant exactly when
`type` is "array" or one of items, unevaluatedItems, maxItems,
minItems, uniqueItems, contains, maxContains, minContains is present —
`additionalItems` alone does not trigger the Array variant (it counts
only together with `items`, which the `items` disjunct subsumes). -/
theorem claim_C6 (f : Nat) (ms : JsonMembers)
    (hty0 : ((Json.obj ms).get "type").asStringOr "" ≠ "null")
    (hty1 : ((Json.obj ms).get "type").asStringOr "" ≠ "boolean")
    (hnum : numberHint (((Json.obj ms).get "type").asStringOr "") (Json.obj ms) = false) :
    (((getTypedNode (f + 1) (Json.obj ms)).1.map (fun n => n.d.tag)) = some InstanceType.arrayT) ↔
      (((Json.obj ms).get "type").asStringOr "" = "array" ∨
       (Json.obj ms).hasKey "items" = true ∨
       (Json.obj ms).hasKey "unevaluatedItems" = true ∨
       (Json.obj ms).hasKey "maxItems" = true ∨
       (Json.obj ms).hasKey "minItems" = true ∨
       (Json.obj ms).hasKey "uniqueItems" = true ∨
       (Json.obj ms).hasKey "contains" = true ∨
       (Json.obj ms).hasKey "maxContains" = true ∨
       (Json.obj ms).hasKey "minContains" = true) := by
  rw [← arrayHint_iff]
  unfold getTypedNode
  simp only [if_neg hty0, if_neg hty1, hnum, Bool.false_eq_true, if_false, SNode.d]
  by_cases ha : arrayHint (((Json.obj ms).get "type").asStringOr "") (Json.obj ms) = true
  · simp only [ha, if_true, if_pos]
    unfold compileArrayNode
    simp [SNode.d]
  · simp only [ha, if_false, Bool.false_eq_true]
    constructor
    · intro h
      exfalso
      by_cases hstr : stringHint (((Json.obj ms).get "type").asStringOr "") (Json.obj ms) = true
      · rw [if_pos hstr] at h
        unfold compileStringNode at h
        simp [SNode.d] at h
      · rw [if_neg hstr] at h
        by_cases hemp : (Json.obj ms).objMembers.isEmpty = true
        · rw [if_pos hemp] at h
          simp [SNode.d] at h
        · rw [if_neg hemp] at h
          by_cases hobj : objectHint (((Json.obj ms).get "type").asStringOr "") (Json.obj ms) = true
          · rw [if_pos hobj] at h
            unfold compileObjectNode at h
            simp [SNode.d] at h
          · rw [if_neg hobj] at h
            simp [SNode.d] at h
    · intro h
      exact h.elim

/-- C6 witness: a sub-schema with only `items` is classified Array. -/
theorem claim_C6_witness :
    ((Json.objOf [("items", Json.bool true)]).get "type").asStringOr "" ≠ "null" ∧
    numberHint "" (Json.objOf [("items", Json.bool true)]) = false ∧
    (((getTypedNode 3 (Json.objOf [("items", Json.bool true)])).1.map (fun n => n.d.tag)) =
      some InstanceType.arrayT) := by
  refine ⟨by decide, by decide, ?_⟩
  exact (claim_C6 2 _ (by decide) (by decide) (by decide)).mpr (Or.inr (Or.inl (by decide)))

/-- C7 counterexample: a root schema whose `$schema` value is the
number 5 — a non-string value the claim says must be rejected — is
accepted: `as_string_or(known_schema)` substitutes the known URL for
any non-string value, no parser error is recorded, and run returns
literal true. -/
theorem claim_C7_counterexample :
    (c7json.get "$schema").isString = false ∧
    (parserRun 20 c7json cleanState).1.result = RunResult.trueVal := by
  exact ⟨by decide, by decide⟩

/-- C7 (amended): when the root object's `$schema` value is a *string*
different from the draft 2019-09 URL, a parser error is recorded (first
in the list), compilation continues, and run returns the accumulated
error list instead of literal true.  (A non-string `$schema` value is
silently treated as the default and accepted — see the
counterexample.) -/
theorem claim_C7 (f : Nat) (ms : JsonMembers) (s : String) (sg : ResolverState)
    (hs : (Json.obj ms).get "$schema" = Json.str s) (hne : s ≠ knownSchema) :
    ∃ rest, (parserRun f (Json.obj ms) sg).1.result = RunResult.errorList (PErr.unknownSchema :: rest) := by
  unfold parserRun
  have hso : ((Json.obj ms).get "$schema").asStringOr knownSchema = s := by
    rw [hs]; rfl
  simp only [hso, if_pos hne, ne_eq]
  cases hr : (getTypedNode f (Json.obj ms)).1 with
  | none =>
    exact ⟨(getTypedNode f (Json.obj ms)).2 ++ [PErr.rootNodeFail], by simp⟩
  | some n0 =>
    refine ⟨(getTypedNode f (Json.obj ms)).2, ?_⟩
    simp

/-- C7 witness: `$schema` present as the string "x". -/
theorem claim_C7_witness :
    (Json.objOf [("$schema", Json.str "x")]).get "$schema" = Json.str "x" ∧ "x" ≠ knownSchema ∧
    ∃ rest, (parserRun 5 (Json.objOf [("$schema", Json.str "x")]) cleanState).1.result =
      RunResult.errorList (PErr.unknownSchema :: rest) := by
  refine ⟨by decide, by decide, ?_⟩
  exact claim_C7 5 _ "x" cleanState (by decide) (by decide)

/-- C9 counterexample: compiling the same schema twice in succession —
the second run starting in the resolver-flag state the first run left
behind — and validating the same instance with the same fuel yields
different validation results: run 1 accepts the empty object, run 2
rejects it, because the dangling `selected_properties` flag makes the
previously unresolvable ref `p` resolve to the property `p` schema. -/
theorem claim_C9_counterexample :
    validatorRun (c9run1.1.rootNode.getD defaultTrueBooleanNode) 20 (Json.objOf []) ≠
      validatorRun (c9run2.1.rootNode.getD defaultTrueBooleanNode) 20 (Json.objOf []) := by
  decide

/-- C9 (amended): compile-then-validate is deterministic given the
resolver's selection-mode state as an explicit input: whenever a run
returns the resolver state it started from, an immediately repeated run
on the same schema produces the identical parser output, and validating
the same instance against the two compiled trees gives identical
results and error lists. -/
theorem claim_C9 (fc fv : Nat) (s j : Json) (sg : ResolverState)
    (h : (parserRun fc s sg).2 = sg) :
    parserRun fc s ((parserRun fc s sg).2) = parserRun fc s sg ∧
    ((parserRun fc s ((parserRun fc s sg).2)).1.rootNode.map (fun r => validatorRun r fv j)) =
      ((parserRun fc s sg).1.rootNode.map (fun r => validatorRun r fv j)) := by
  rw [h]
  exact ⟨rfl, rfl⟩

/-- C9 witness: a ref-free schema leaves the resolver state untouched,
so back-to-back runs agree. -/
theorem claim_C9_witness :
    (parserRun 5 (Json.objOf [("type", Json.str "string")]) cleanState).2 = cleanState ∧
    parserRun 5 (Json.objOf [("type", Json.str "string")])
        ((parserRun 5 (Json.objOf [("type", Json.str "string")]) cleanState).2) =
      parserRun 5 (Json.objOf [("type", Json.str "string")]) cleanState := by
  refine ⟨by decide, ?_⟩
  exact (claim_C9 5 3 (Json.objOf [("type", Json.str "string")]) Json.null cleanState (by decide)).1

theorem toList_ofList (l : List Json) : (JsonList.ofList l).toList = l := by
  induction l with
  | nil => rfl
  | cons h t ih => simp [JsonList.ofList, JsonList.toList, ih]

theorem arrElems_arrOf (vs : List Json) : (Json.arrOf vs).arrElems = vs := by
  simp [Json.arrOf, Json.arrElems, toList_ofList]

theorem arrayLoop_unique_eq (vn : List Step → SNode → Json → Bool × List VError)
    (path : List Step) (af : ArrF SNode) (ptr : String) (jarr : Json)
    (hu : af.uniqueItems = true) (hi : af.items = []) (hc : af.contains = none)
    (ha : af.additionalItems = none) :
    ∀ (vs : List Json) (i : Nat) (seen : List Json) (cv : Bool),
      arrayLoop vn path af ptr jarr vs i seen cv =
        (uniqueScanOk seen vs, uniqueScanErrs ptr jarr seen vs, cv) := by
  intro vs
  induction vs with
  | nil =>
    intro i seen cv
    rfl
  | cons v rest ih =>
    intro i seen cv
    unfold arrayLoop
    rw [hu, hi, hc, ha]
    rcases hcv : seen.contains v with _ | _
    · have hv : v ∉ seen := by simpa using hcv
      cases hb : af.itemsIsArray <;>
        simp [hb, hcv, hv, ih, uniqueScanOk, uniqueScanErrs]
    · have hv : v ∈ seen := by simpa using hcv
      cases hb : af.itemsIsArray <;>
        simp [hb, hcv, hv, ih, uniqueScanOk, uniqueScanErrs]

theorem uniqueScanOk_iff : ∀ (vs seen : List Json),
    uniqueScanOk seen vs = true ↔ vs.Nodup ∧ ∀ v ∈ vs, v ∉ seen := by
  intro vs
  induction vs with
  | nil => intro seen; simp [uniqueScanOk]
  | cons v rest ih =>
    intro seen
    simp only [uniqueScanOk, Bool.and_eq_true, ih, List.nodup_cons, List.mem_cons]
    constructor
    · rintro ⟨hc, hnd, hall⟩
      have hv : v ∉ seen := by simpa using hc
      refine ⟨⟨fun hm => hall v hm (Or.inl rfl), hnd⟩, ?_⟩
      rintro w (rfl | hw)
      · exact hv
      · exact fun hs => hall w hw (Or.inr hs)
    · rintro ⟨⟨hvr, hnd⟩, hall⟩
      have hv : v ∉ seen := hall v (Or.inl rfl)
      refine ⟨by simpa using hv, hnd, ?_⟩
      rintro w hw (rfl | hs)
      · exact hvr hw
      · exact hall w (Or.inr hw) hs

theorem uniqueScanErrs_eq_nil (ptr : String) (jarr : Json) :
    ∀ (vs seen : List Json),
      uniqueScanErrs ptr jarr seen vs = [] ↔ uniqueScanOk seen vs = true := by
  intro vs
  induction vs with
  | nil => intro seen; simp [uniqueScanErrs, uniqueScanOk]
  | cons v rest ih =>
    intro seen
    cases hcv : seen.contains v <;>
      simp [uniqueScanErrs, uniqueScanOk, hcv, ih]

theorem uniqueScanErrs_shape (ptr : String) (jarr : Json) :
    ∀ (vs seen : List Json) (e : VError), e ∈ uniqueScanErrs ptr jarr seen vs →
      ∃ v, e = .uniqueItemsViolation v ptr jarr := by
  intro vs
  induction vs with
  | nil => intro seen e h; simp [uniqueScanErrs] at h
  | cons v rest ih =>
    intro seen e h
    simp only [uniqueScanErrs, List.mem_append] at h
    rcases h with h | h
    · cases hcv : seen.contains v <;> rw [hcv] at h <;> simp at h
      exact ⟨v, h⟩
    · exact ih _ _ h

theorem validateCommonPart_trivial (vn : List Step → SNode → Json → Bool × List VError)
    (fuelDefs : Nat) (root : SNode) (path : List Step) (n : SNode) (j : Json)
    (hao : n.d.allOf = []) (href : n.d.reference = none) (hany : n.d.anyOf = [])
    (hnot : n.d.notNode = none) (hone : n.d.oneOf = []) (henum : n.d.enumItems = [])
    (hobj : j.isObject = false) :
    validateCommonPart vn fuelDefs root path n j = (true, []) := by
  simp [validateCommonPart, hao, href, hany, hnot, hone, henum, hobj, conjIdx]

/-- C5 (amended): on an Array node whose only active keyword is
`uniqueItems: true` (no items/contains/additionalItems, no combinators,
no reference) and an array instance whose length satisfies the declared
min/max bounds, validation succeeds iff the elements are pairwise
distinct, and a uniqueItems error is emitted iff some pair of elements
is JSON-equal.  (The original claim fails without the bounds
hypotheses: the source returns early on a minItems/maxItems violation,
skipping the unique scan — see the counterexample.) -/
theorem claim_C5 (root : SNode) (f : Nat) (path : List Step) (n : SNode) (vs : List Json)
    (htag : n.d.tag = .arrayT)
    (hu : n.d.arrF.uniqueItems = true) (hi : n.d.arrF.items = [])
    (hai : n.d.arrF.additionalItems = none) (hcont : n.d.arrF.contains = none)
    (hao : n.d.allOf = []) (href : n.d.reference = none) (hany : n.d.anyOf = [])
    (hnot : n.d.notNode = none) (hone : n.d.oneOf = []) (henum : n.d.enumItems = [])
    (hmin : n.d.arrF.minItems ≤ vs.length)
    (hmax : ∀ m ∈ n.d.arrF.maxItems, vs.length ≤ m) :
    ((validateNode root (f + 1) path n (Json.arrOf vs)).1 = true ↔ vs.Nodup) ∧
    ((∃ v, VError.uniqueItemsViolation v (pointerOf root path) (Json.arrOf vs) ∈
        (validateNode root (f + 1) path n (Json.arrOf vs)).2) ↔ ¬ vs.Nodup) := by
  have hobj : (Json.arrOf vs).isObject = false := rfl
  have hund : (Json.arrOf vs).isUndefined = false := rfl
  have hisar : (Json.arrOf vs).isArray = true := rfl
  have hcom := validateCommonPart_trivial (validateNode root f) f root path n
    (Json.arrOf vs) hao href hany hnot hone henum hobj
  have hloop := arrayLoop_unique_eq (validateNode root f) path n.d.arrF
    (pointerOf root path) (Json.arrOf vs) hu hi hcont hai vs 0 [] false
  have hminv : ¬ (vs.length < n.d.arrF.minItems) := Nat.not_lt.mpr hmin
  have hmaxv : (match n.d.arrF.maxItems with
      | some m => decide (vs.length > m)
      | none => false) = false := by
    cases hm : n.d.arrF.maxItems with
    | none => rfl
    | some m =>
      simpa using Nat.not_lt.mpr (hmax m (by simp [hm]))
  have hval : validateNode root (f + 1) path n (Json.arrOf vs)
      = (uniqueScanOk [] vs,
         uniqueScanErrs (pointerOf root path) (Json.arrOf vs) [] vs) := by
    simp only [validateNode]
    simp [htag, validateTypeOk, hisar, hund, hobj, hcom, hloop, hcont, hminv, hmaxv,
      arrElems_arrOf]
  rw [hval]
  constructor
  · simp [uniqueScanOk_iff]
  · constructor
    · rintro ⟨v, hvmem⟩ hnd
      have hok : uniqueScanOk [] vs = true := by simp [uniqueScanOk_iff, hnd]
      rw [(uniqueScanErrs_eq_nil _ _ vs []).mpr hok] at hvmem
      exact absurd hvmem (List.not_mem_nil _)
    · intro hnd
      have hok : uniqueScanOk [] vs ≠ true := by
        intro h
        exact hnd ((by simpa using (uniqueScanOk_iff vs []).mp h : vs.Nodup))
      have hne : uniqueScanErrs (pointerOf root path) (Json.arrOf vs) [] vs ≠ [] := by
        intro h0
        exact hok ((uniqueScanErrs_eq_nil _ _ vs []).mp h0)
      obtain ⟨e, he⟩ := List.exists_mem_of_ne_nil _ hne
      obtain ⟨v, rfl⟩ := uniqueScanErrs_shape _ _ vs [] e he
      exact ⟨v, he⟩

theorem claim_C5_witness :
    (((validateNode c5wnode (0 + 1) [] c5wnode
        (Json.arrOf [Json.int 1, Json.int 1])).1 = true ↔
      ([Json.int 1, Json.int 1] : List Json).Nodup) ∧
     ((∃ v, VError.uniqueItemsViolation v (pointerOf c5wnode [])
          (Json.arrOf [Json.int 1, Json.int 1]) ∈
        (validateNode c5wnode (0 + 1) [] c5wnode
          (Json.arrOf [Json.int 1, Json.int 1])).2) ↔
      ¬ ([Json.int 1, Json.int 1] : List Json).Nodup)) :=
  claim_C5 c5wnode 0 [] c5wnode [Json.int 1, Json.int 1]
    rfl rfl rfl rfl rfl rfl rfl rfl rfl rfl rfl (by decide)
    (fun m hm => by simp [c5wnode, SNode.d, Option.mem_def] at hm)


theorem natReprAux_ne_nil (f n : Nat) : natReprAux (f + 1) n ≠ [] := by
  simp only [natReprAux]
  split <;> simp

theorem isDigitChar_digitChar (d : Nat) (h : d < 10) : isDigitChar (digitChar d) = true := by
  interval_cases d <;> decide

theorem digitChar_toNat (d : Nat) (h : d < 10) : (digitChar d).toNat - 48 = d := by
  interval_cases d <;> decide

theorem natReprAux_digits : ∀ (f n : Nat), ∀ c ∈ natReprAux f n, isDigitChar c = true := by
  intro f
  induction f with
  | zero => intro n c h; simp [natReprAux] at h
  | succ f ih =>
    intro n c h
    simp only [natReprAux] at h
    split at h
    · simp at h
      subst h
      exact isDigitChar_digitChar n (by omega)
    · rcases List.mem_append.mp h with h | h
      · exact ih _ c h
      · simp at h
        subst h
        exact isDigitChar_digitChar _ (Nat.mod_lt _ (by norm_num))

theorem parseUIntChars_append : ∀ (xs ys : List Char) (acc : Nat),
    parseUIntChars (xs ++ ys) acc = (parseUIntChars xs acc).bind (fun a => parseUIntChars ys a) := by
  intro xs
  induction xs with
  | nil => intro ys acc; rfl
  | cons c rest ih =>
    intro ys acc
    by_cases hc : isDigitChar c = true <;> simp [parseUIntChars, hc, ih]

theorem parseUIntChars_natReprAux : ∀ (f n acc : Nat), n < 10 ^ f →
    ∃ k, parseUIntChars (natReprAux f n) acc = some (acc * 10 ^ k + n) := by
  intro f
  induction f with
  | zero =>
    intro n acc h
    have hn : n = 0 := by simpa using h
    subst hn
    exact ⟨0, by simp [natReprAux, parseUIntChars]⟩
  | succ f ih =>
    intro n acc h
    by_cases hn : n < 10
    · refine ⟨1, ?_⟩
      simp only [natReprAux, if_pos hn, parseUIntChars]
      rw [if_pos (isDigitChar_digitChar n hn), digitChar_toNat n hn]
      simp [parseUIntChars]
    · simp only [natReprAux, if_neg hn]
      have h10 : n / 10 < 10 ^ f := by
        rw [Nat.div_lt_iff_lt_mul (by norm_num)]
        calc n < 10 ^ (f + 1) := h
          _ = 10 ^ f * 10 := by ring
      obtain ⟨k, hk⟩ := ih (n / 10) acc h10
      refine ⟨k + 1, ?_⟩
      rw [parseUIntChars_append, hk]
      have hm : n % 10 < 10 := Nat.mod_lt _ (by norm_num)
      simp only [Option.bind, parseUIntChars]
      rw [if_pos (isDigitChar_digitChar _ hm), digitChar_toNat _ hm]
      simp only [parseUIntChars, Option.some.injEq]
      have h2 : acc * 10 ^ (k + 1) = acc * 10 ^ k * 10 := by ring
      rw [h2]
      generalize acc * 10 ^ k = A
      omega

theorem natRepr_digits (n : Nat) : ∀ c ∈ (natRepr n).data, isDigitChar c = true :=
  natReprAux_digits (n + 1) n

theorem parseUInt_natRepr (n : Nat) : parseUInt (natRepr n) = some n := by
  have hlt : n < 10 ^ (n + 1) :=
    lt_of_lt_of_le (Nat.lt_pow_self (by norm_num) n)
      (Nat.pow_le_pow_right (by norm_num) (Nat.le_succ n))
  obtain ⟨k, hk⟩ := parseUIntChars_natReprAux (n + 1) n 0 hlt
  have hne := natReprAux_ne_nil n n
  simp only [parseUInt, natRepr] at *
  rw [if_neg (by simpa using hne)]
  simpa using hk

theorem allDigits_ne (s t : String) (hs : ∀ c ∈ s.data, isDigitChar c = true)
    (c : Char) (hc : c ∈ t.data) (hcd : isDigitChar c = false) : s ≠ t := by
  intro he
  subst he
  rw [hs c hc] at hcd
  cases hcd

theorem natRepr_ne_empty (n : Nat) : natRepr n ≠ "" := by
  intro h
  have hd : (natRepr n).data = [] := by rw [h]
  exact natReprAux_ne_nil n n hd

theorem digits_not_startsWith_hash (s : String) (hs : ∀ c ∈ s.data, isDigitChar c = true) :
    strStartsWith s "#" = false := by
  cases hd : s.data with
  | nil => simp [strStartsWith, hd, List.isPrefixOf]
  | cons c rest =>
    have hc := hs c (by rw [hd]; simp)
    have hne : ('#' : Char) ≠ c := by
      intro he
      rw [← he] at hc
      simp [isDigitChar] at hc
    simp [strStartsWith, hd, List.isPrefixOf, hne]


theorem splitSlashAux_append : ∀ (xs ys acc : List Char),
    splitSlashAux (xs ++ '/' :: ys) acc = splitSlashAux xs acc ++ splitSlashAux ys [] := by
  intro xs
  induction xs with
  | nil => intro ys acc; simp [splitSlashAux]
  | cons c rest ih =>
    intro ys acc
    by_cases hc : c = '/'
    · subst hc
      simp [splitSlashAux, ih]
    · simp [splitSlashAux, hc, ih]

theorem splitSlashAux_noSlash : ∀ (xs acc : List Char), '/' ∉ xs →
    splitSlashAux xs acc = [String.mk (acc.reverse ++ xs)] := by
  intro xs
  induction xs with
  | nil => intro acc h; simp [splitSlashAux]
  | cons c rest ih =>
    intro acc h
    have hc : c ≠ '/' := fun he => h (by simp [he])
    have hr : '/' ∉ rest := fun hm => h (by simp [hm])
    simp [splitSlashAux, hc, ih (c :: acc) hr]

theorem splitSlash_token (t : String) (h : '/' ∉ t.data) : splitSlashAux t.data [] = [t] := by
  rw [splitSlashAux_noSlash t.data [] h]
  rfl

theorem replacePairChars_id (a b : Char) (repl : List Char) : ∀ xs, a ∉ xs →
    replacePairChars a b repl xs = xs := by
  intro xs
  induction xs with
  | nil => intro _; rfl
  | cons c rest ih =>
    intro h
    cases rest with
    | nil => rfl
    | cons c2 rest2 =>
      have hca : c ≠ a := fun he => h (by simp [he])
      have hrest : a ∉ c2 :: rest2 := fun hm => h (List.mem_cons_of_mem _ hm)
      simp [replacePairChars, hca, ih hrest]

theorem unescapeToken_id (t : String) (h : '~' ∉ t.data) : unescapeToken t = t := by
  unfold unescapeToken
  rw [replacePairChars_id _ _ _ _ h, replacePairChars_id _ _ _ _ h]


theorem handleIdentifer_hash (root n : SNode) (cur : List Step) (σ : ResolverState)
    (h : n.d.isRoot = true) :
    resolveReferenceHandleIdentifer root cur n "#" σ = (some cur, σ) := by
  rcases htag : n.d.tag <;>
    simp [resolveReferenceHandleIdentifer, htag, objectHandleIdentifer,
      arrayHandleIdentifer, baseHandleIdentifer, h]

theorem handle_properties (root m : SNode) (cur : List Step)
    (htag : m.d.tag = .objectT) (hid : m.d.id = "") :
    resolveReferenceHandleIdentifer root cur m "properties" cleanState =
      (some cur, { selProps := true }) := by
  simp [resolveReferenceHandleIdentifer, htag, objectHandleIdentifer,
    baseHandleIdentifer, hid, cleanState, strStartsWith, List.isPrefixOf]

theorem handle_items (root m : SNode) (cur : List Step)
    (htag : m.d.tag = .arrayT) (hid : m.d.id = "") :
    resolveReferenceHandleIdentifer root cur m "items" cleanState =
      (some cur, { selItems := true }) := by
  simp [resolveReferenceHandleIdentifer, htag, arrayHandleIdentifer,
    baseHandleIdentifer, hid, cleanState, strStartsWith, List.isPrefixOf]


theorem stepNameOk_facts (name : String) (h : stepNameOk name = true) :
    name ≠ "" ∧ strStartsWith name "#" = false ∧ name ≠ "$defs" ∧ name ≠ "properties" ∧
      '/' ∉ name.data ∧ '~' ∉ name.data ∧ name ≠ "#" := by
  simp only [stepNameOk, Bool.and_eq_true, Bool.not_eq_true', decide_eq_true_eq] at h
  obtain ⟨⟨⟨⟨⟨h1, h2⟩, h3⟩, h4⟩, h5⟩, h6⟩ := h
  refine ⟨h1, h2, h3, h4, by simpa using h5, by simpa using h6, ?_⟩
  intro he
  rw [he] at h2
  simp [strStartsWith, List.isPrefixOf] at h2

theorem handle_propName (root m c : SNode) (cur : List Step) (name : String)
    (htag : m.d.tag = .objectT) (hid : m.d.id = "") (hname : stepNameOk name = true)
    (hc : lookupAssoc m.d.objF.properties name = some c) :
    resolveReferenceHandleIdentifer root cur m name { selProps := true } =
      (some (cur ++ [Step.property name]), cleanState) := by
  obtain ⟨h1, h2, h3, h4, _, _, h7⟩ := stepNameOk_facts name hname
  have h5 : ("" : String) ≠ name := fun he => h1 he.symm
  simp [resolveReferenceHandleIdentifer, htag, objectHandleIdentifer,
    baseHandleIdentifer, hid, h1, h2, h3, h4, h5, h7, hc, cleanState]

theorem handle_itemIdx (root m : SNode) (cur : List Step) (i : Nat)
    (htag : m.d.tag = .arrayT) (hid : m.d.id = "")
    (hi : i < m.d.arrF.items.length) :
    resolveReferenceHandleIdentifer root cur m (natRepr i) { selItems := true } =
      (some (cur ++ [Step.item i]), cleanState) := by
  have hd := natRepr_digits i
  have h1 : natRepr i ≠ "#" := allDigits_ne _ _ hd '#' (by decide) (by decide)
  have h2 : strStartsWith (natRepr i) "#" = false := digits_not_startsWith_hash _ hd
  have h3 : natRepr i ≠ "$defs" := allDigits_ne _ _ hd '$' (by decide) (by decide)
  have h4 : natRepr i ≠ "items" := allDigits_ne _ _ hd 'i' (by decide) (by decide)
  have h5 : ("" : String) ≠ natRepr i := fun he => natRepr_ne_empty i he.symm
  have h6 := parseUInt_natRepr i
  simp [resolveReferenceHandleIdentifer, htag, arrayHandleIdentifer,
    baseHandleIdentifer, hid, h1, h2, h3, h4, h5, h6, hi, cleanState]

theorem getNode_append : ∀ (p q : List Step) (root : SNode),
    getNode root (p ++ q) = (getNode root p).bind (fun m => getNode m q) := by
  intro p
  induction p with
  | nil => intro q root; rfl
  | cons s rest ih =>
    intro q root
    simp only [List.cons_append, getNode]
    cases root.childAt s with
    | none => rfl
    | some c => simp [ih]


theorem resolveWalk_pathTokens (root : SNode) : ∀ (p : List Step) (m : SNode) (cur : List Step),
    getNode root cur = some m → pathOk root m p = true →
    resolveWalk root (pathTokens m p) cur cleanState = (some (cur ++ p), cleanState) := by
  intro p
  induction p with
  | nil =>
    intro m cur hg hp
    simp [pathTokens, resolveWalk]
  | cons s rest ih =>
    intro m cur hg hp
    cases s
    case property name =>
      simp only [pathOk] at hp
      cases hL : lookupAssoc m.d.objF.properties name with
      | none => rw [hL] at hp; simp at hp
      | some c =>
        rw [hL] at hp
        simp only [Bool.and_eq_true, Bool.not_eq_true', decide_eq_true_eq] at hp
        obtain ⟨⟨⟨htag, hid⟩, hname⟩, hpat, hrest⟩ := hp
        have hg' : getNode root (cur ++ [Step.property name]) = some c := by
          rw [getNode_append, hg]
          simp [Option.bind, getNode, SNode.childAt, hL]
        simp only [pathTokens, hL]
        simp only [resolveWalk, hg]
        rw [handle_properties root m cur htag hid]
        simp only [resolveWalk, hg]
        rw [handle_propName root m c cur name htag hid hname hL]
        dsimp only
        rw [ih c (cur ++ [Step.property name]) hg' hrest]
        simp
    case item i =>
      simp only [pathOk] at hp
      cases hL : m.d.arrF.items.get? i with
      | none => rw [hL] at hp; simp at hp
      | some c =>
        rw [hL] at hp
        simp only [Bool.and_eq_true, decide_eq_true_eq] at hp
        obtain ⟨⟨htag, hid⟩, hrest⟩ := hp
        have hi : i < m.d.arrF.items.length := by
          by_contra hh
          rw [List.get?_eq_none.mpr (Nat.le_of_not_lt hh)] at hL
          cases hL
        have hg' : getNode root (cur ++ [Step.item i]) = some c := by
          rw [getNode_append, hg]
          simp [Option.bind, getNode, SNode.childAt, ← List.get?_eq_getElem?, hL]
        simp only [pathTokens, hL]
        simp only [resolveWalk, hg]
        rw [handle_items root m cur htag hid]
        simp only [resolveWalk, hg]
        rw [handle_itemIdx root m cur i htag hid hi]
        dsimp only
        rw [ih c (cur ++ [Step.item i]) hg' hrest]
        simp
    all_goals simp [pathOk] at hp


theorem splitSlash_acc_lab (acc lab : String) (ts : List String)
    (hl : splitSlashAux lab.data [] = ts) :
    splitSlash (acc ++ "/" ++ lab) = splitSlash acc ++ ts := by
  unfold splitSlash
  have hdata : (acc ++ "/" ++ lab).data = acc.data ++ '/' :: lab.data := by
    simp [String.data_append]
  rw [hdata, splitSlashAux_append, hl]

theorem splitSlash_pointerGo (root : SNode) : ∀ (p : List Step) (m : SNode) (acc : String),
    pathOk root m p = true →
    splitSlash (pointerGo m acc p) = splitSlash acc ++ pathTokens m p := by
  intro p
  induction p with
  | nil =>
    intro m acc hp
    simp [pointerGo, pathTokens]
  | cons s rest ih =>
    intro m acc hp
    cases s
    case property name =>
      simp only [pathOk] at hp
      cases hL : lookupAssoc m.d.objF.properties name with
      | none => rw [hL] at hp; simp at hp
      | some c =>
        rw [hL] at hp
        simp only [Bool.and_eq_true, Bool.not_eq_true', decide_eq_true_eq] at hp
        obtain ⟨⟨⟨htag, hid⟩, hname⟩, hpat, hrest⟩ := hp
        obtain ⟨_, _, _, _, hsl, _, _⟩ := stepNameOk_facts name hname
        have hlab : labelOf m c (Step.property name) = "properties/" ++ name := by
          simp [labelOf, htag, hpat, hL]
        simp only [pointerGo, SNode.childAt, hL, hlab]
        rw [ih c _ hrest]
        have hsplit : splitSlashAux ("properties/" ++ name).data [] = ["properties", name] := by
          have hd : ("properties/" ++ name).data = "properties".data ++ '/' :: name.data := rfl
          rw [hd, splitSlashAux_append, splitSlash_token name hsl]
          rfl
        rw [splitSlash_acc_lab acc _ _ hsplit]
        simp [pathTokens, hL]
    case item i =>
      simp only [pathOk] at hp
      cases hL : m.d.arrF.items.get? i with
      | none => rw [hL] at hp; simp at hp
      | some c =>
        rw [hL] at hp
        simp only [Bool.and_eq_true, decide_eq_true_eq] at hp
        obtain ⟨⟨htag, hid⟩, hrest⟩ := hp
        have hi : i < m.d.arrF.items.length := by
          by_contra hh
          rw [List.get?_eq_none.mpr (Nat.le_of_not_lt hh)] at hL
          cases hL
        have hdig := natRepr_digits i
        have hsl : '/' ∉ (natRepr i).data := by
          intro hm
          have := hdig '/' hm
          simp [isDigitChar] at this
        have hlab : labelOf m c (Step.item i) = "items/" ++ natRepr i := by
          have hobj : m.d.tag ≠ InstanceType.objectT := by rw [htag]; intro hh; cases hh
          simp [labelOf, htag, hobj, hi]
        simp only [pointerGo, SNode.childAt, hL, hlab]
        rw [ih c _ hrest]
        have hsplit : splitSlashAux ("items/" ++ natRepr i).data [] = ["items", natRepr i] := by
          have hd : ("items/" ++ natRepr i).data = "items".data ++ '/' :: (natRepr i).data := rfl
          rw [hd, splitSlashAux_append, splitSlash_token _ hsl]
          rfl
        rw [splitSlash_acc_lab acc _ _ hsplit]
        simp [pathTokens, ← List.get?_eq_getElem?, hL]
    all_goals simp [pathOk] at hp


theorem pathTokens_unescape (root : SNode) : ∀ (p : List Step) (m : SNode),
    pathOk root m p = true →
    (pathTokens m p).map unescapeToken = pathTokens m p := by
  intro p
  induction p with
  | nil => intro m hp; rfl
  | cons s rest ih =>
    intro m hp
    cases s
    case property name =>
      simp only [pathOk] at hp
      cases hL : lookupAssoc m.d.objF.properties name with
      | none => rw [hL] at hp; simp at hp
      | some c =>
        rw [hL] at hp
        simp only [Bool.and_eq_true, Bool.not_eq_true', decide_eq_true_eq] at hp
        obtain ⟨⟨⟨htag, hid⟩, hname⟩, hpat, hrest⟩ := hp
        obtain ⟨_, _, _, _, _, htil, _⟩ := stepNameOk_facts name hname
        simp only [pathTokens, hL, List.map]
        rw [unescapeToken_id name htil, ih c hrest]
        rw [show unescapeToken "properties" = "properties" from by decide]
    case item i =>
      simp only [pathOk] at hp
      cases hL : m.d.arrF.items.get? i with
      | none => rw [hL] at hp; simp at hp
      | some c =>
        rw [hL] at hp
        simp only [Bool.and_eq_true, decide_eq_true_eq] at hp
        obtain ⟨⟨htag, hid⟩, hrest⟩ := hp
        have htil : '~' ∉ (natRepr i).data := by
          intro hm
          have := natRepr_digits i '~' hm
          simp [isDigitChar] at this
        simp only [pathTokens, hL, List.map]
        rw [unescapeToken_id _ htil, ih c hrest]
        rw [show unescapeToken "items" = "items" from by decide]
    all_goals simp [pathOk] at hp

/-- C8 (amended): for a path of `properties/<name>` and `items/<index>`
edges between `$id`-free nodes, with names that are nonempty, not
anchor-like, not resolver keywords and free of `/` and `~`, and with no
pattern-identified child on the chain, resolving the node's computed
JSON pointer from the root through the reference resolver (started in
the clean flag state) returns that same node's path and leaves the
flags clean.  (The original unrestricted claim is refuted by the
counterexample: an `allOf` child's pointer `#/allOf/0` cannot be walked
back, because the identifier handlers only understand `#`, anchors,
`$defs`, `properties` and `items` tokens.) -/
theorem claim_C8 (root : SNode) (p : List Step) (hroot : root.d.isRoot = true)
    (hp : pathOk root root p = true) :
    resolveRefStr root (pointerOf root p) cleanState = (some p, cleanState) := by
  have hsplit : splitSlash (pointerOf root p) = "#" :: pathTokens root p := by
    have h := splitSlash_pointerGo root p root "#" hp
    rw [pointerOf]
    rw [h]
    rfl
  have hne : pointerOf root p ≠ "" := by
    intro h0
    rw [h0] at hsplit
    have h1 : ([""] : List String) = "#" :: pathTokens root p := hsplit
    injection h1 with h2 h3
    exact absurd h2 (by decide)
  unfold resolveRefStr
  rw [if_neg hne, hsplit]
  simp only [List.map]
  rw [show unescapeToken "#" = "#" from by decide]
  rw [pathTokens_unescape root p root hp]
  simp only [resolveWalk, getNode]
  rw [handleIdentifer_hash root root [] cleanState hroot]
  dsimp only
  have h := resolveWalk_pathTokens root p root [] rfl hp
  simpa using h

theorem claim_C8_witness :
    c8wroot.d.isRoot = true ∧ pathOk c8wroot c8wroot [Step.property "a"] = true ∧
    resolveRefStr c8wroot (pointerOf c8wroot [Step.property "a"]) cleanState =
      (some [Step.property "a"], cleanState) :=
  ⟨by decide, by decide,
    claim_C8 c8wroot [Step.property "a"] (by decide) (by decide)⟩

/-- C8 counterexample: the compiled tree of a schema with a single
`allOf` child has a node at `#/allOf/0` (the computed pointer of that
child), yet the resolver cannot walk that pointer back: it yields
nullptr, refuting the unrestricted round-trip claim. -/
theorem claim_C8_counterexample :
    (getNode c8root [Step.allOf 0]).isSome = true ∧
    pointerOf c8root [Step.allOf 0] = "#/allOf/0" ∧
    (resolveRefStr c8root (pointerOf c8root [Step.allOf 0]) cleanState).1 = none := by
  refine ⟨by decide, by decide, by decide⟩


theorem allApOk_intro (n : SNode) (h1 : apOk n) (h2 : ∀ c ∈ n.children, allApOk c) :
    allApOk n := by
  intro m hd
  rcases Relation.ReflTransGen.cases_head hd with rfl | ⟨c, hc, hd2⟩
  · exact h1
  · exact h2 c hc m hd2

theorem allApOk_self (n : SNode) (h : allApOk n) : apOk n :=
  h n Relation.ReflTransGen.refl

theorem allApOk_child (n c : SNode) (h : allApOk n) (hc : c ∈ n.children) : allApOk c :=
  fun m hd => h m (Relation.ReflTransGen.head hc hd)

theorem allApOk_leaf (n : SNode) (hch : n.children = []) (hap : apOk n) : allApOk n :=
  allApOk_intro n hap (fun c hc => absurd hc (by simp [hch]))

theorem lookupAssoc_mem {α : Type} (l : List (String × α)) (k : String) (v : α)
    (h : lookupAssoc l k = some v) : ∃ p ∈ l, p.2 = v := by
  simp only [lookupAssoc, Option.map_eq_some'] at h
  obtain ⟨p, hp, rfl⟩ := h
  exact ⟨p, List.mem_of_find?_eq_some hp, rfl⟩

theorem childAt_mem_children (n c : SNode) (s : Step) (h : n.childAt s = some c) :
    c ∈ n.children := by
  cases s <;> simp only [SNode.childAt] at h <;>
    simp only [SNode.children, List.mem_append]
  case property name =>
    obtain ⟨p, hp, hpc⟩ := lookupAssoc_mem _ _ _ h
    have hf : c ∈ n.d.objF.properties.map Prod.snd := List.mem_map.mpr ⟨p, hp, hpc⟩
    tauto
  case dependentSchema name =>
    obtain ⟨p, hp, hpc⟩ := lookupAssoc_mem _ _ _ h
    have hf : c ∈ n.d.objF.dependentSchemas.map Prod.snd := List.mem_map.mpr ⟨p, hp, hpc⟩
    tauto
  case defs name =>
    obtain ⟨p, hp, hpc⟩ := lookupAssoc_mem _ _ _ h
    have hf : c ∈ n.d.defs.map Prod.snd := List.mem_map.mpr ⟨p, hp, hpc⟩
    tauto
  case patternProperty i =>
    have hf := List.get?_mem h
    tauto
  case item i =>
    have hf := List.get?_mem h
    tauto
  case allOf i =>
    have hf := List.get?_mem h
    tauto
  case anyOf i =>
    have hf := List.get?_mem h
    tauto
  case oneOf i =>
    have hf := List.get?_mem h
    tauto
  case additionalProperties =>
    have hf : c ∈ n.d.objF.additionalProperties.toList := by simp [h]
    tauto
  case propertyNames =>
    have hf : c ∈ n.d.objF.propertyNames.toList := by simp [h]
    tauto
  case containsStep =>
    have hf : c ∈ n.d.arrF.contains.toList := by simp [h]
    tauto
  case additionalItems =>
    have hf : c ∈ n.d.arrF.additionalItems.toList := by simp [h]
    tauto
  case notStep =>
    have hf : c ∈ n.d.notNode.toList := by simp [h]
    tauto


theorem allApOk_setRequiredTrue (n : SNode) (h : allApOk n) : allApOk (setRequiredTrue n) := by
  refine allApOk_intro _ ?_ ?_
  · intro htag
    exact allApOk_self n h htag
  · intro c hc
    exact allApOk_child n c h hc

theorem allApOk_setPatternField (n : SNode) (pat : String) (h : allApOk n) :
    allApOk (setPatternField n pat) := by
  refine allApOk_intro _ ?_ ?_
  · intro htag
    exact allApOk_self n h htag
  · intro c hc
    exact allApOk_child n c h hc

theorem allApOk_setRoot (n : SNode) (h : allApOk n) : allApOk (setRoot n) := by
  refine allApOk_intro _ ?_ ?_
  · intro htag
    exact allApOk_self n h htag
  · intro c hc
    exact allApOk_child n c h hc

theorem allApOk_defaultTrue : allApOk defaultTrueBooleanNode := by
  refine allApOk_leaf _ rfl ?_
  intro htag
  exact absurd htag (by decide)

theorem getNode_allApOk : ∀ (p : List Step) (root m : SNode),
    getNode root p = some m → allApOk root → allApOk m := by
  intro p
  induction p with
  | nil =>
    intro root m h hr
    cases h
    exact hr
  | cons st rest ih =>
    intro root m h hr
    simp only [getNode] at h
    cases hca : root.childAt st with
    | none => rw [hca] at h; cases h
    | some c =>
      rw [hca] at h
      exact ih c m h (allApOk_child root c hr (childAt_mem_children root c st hca))

theorem compileList_allApOk (gtn : Json → Option SNode × List PErr)
    (H : ∀ j c, (gtn j).1 = some c → allApOk c) :
    ∀ l, ∀ c ∈ (compileList gtn l).1, allApOk c := by
  intro l
  induction l with
  | nil => intro c hc; simp [compileList] at hc
  | cons j rest ih =>
    intro c hc
    simp only [compileList, List.mem_append] at hc
    rcases hc with hc | hc
    · simp only [Option.mem_toList, Option.mem_def] at hc
      exact H j c hc
    · exact ih c hc

theorem compileMembers_allApOk (gtn : Json → Option SNode × List PErr)
    (H : ∀ j c, (gtn j).1 = some c → allApOk c) :
    ∀ l, ∀ p ∈ (compileMembers gtn l).1, allApOk p.2 := by
  intro l
  induction l with
  | nil => intro p hp; simp [compileMembers] at hp
  | cons kv rest ih =>
    intro p hp
    simp only [compileMembers, List.mem_append] at hp
    rcases hp with hp | hp
    · simp only [Option.mem_toList, Option.mem_def, Option.map_eq_some'] at hp
      obtain ⟨c, hc, rfl⟩ := hp
      exact H kv.2 c hc
    · exact ih p hp

theorem compilePatternProps_allApOk (gtn : Json → Option SNode × List PErr)
    (H : ∀ j c, (gtn j).1 = some c → allApOk c) :
    ∀ l, ∀ c ∈ (compilePatternProps gtn l).1, allApOk c := by
  intro l
  induction l with
  | nil => intro c hc; simp [compilePatternProps] at hc
  | cons kv rest ih =>
    intro c hc
    simp only [compilePatternProps] at hc
    split at hc
    · simp only [List.mem_append, Option.mem_toList, Option.mem_def,
        Option.map_eq_some'] at hc
      rcases hc with ⟨c0, hc0, rfl⟩ | hc
      · exact allApOk_setPatternField c0 kv.1 (H kv.2 c0 hc0)
      · exact ih c hc
    · exact ih c hc

theorem applyRequiredOne_allApOk (name : String) (props : List (String × SNode))
    (H : ∀ p ∈ props, allApOk p.2) :
    ∀ p ∈ applyRequiredOne name props, allApOk p.2 := by
  intro p hp
  simp only [applyRequiredOne, List.mem_map] at hp
  obtain ⟨q, hq, rfl⟩ := hp
  split
  · exact allApOk_setRequiredTrue _ (H q hq)
  · exact H q hq

theorem processRequired_allApOk : ∀ (reqs : List Json) (props : List (String × SNode)),
    (∀ p ∈ props, allApOk p.2) → ∀ p ∈ (processRequired reqs props).1, allApOk p.2 := by
  intro reqs
  induction reqs with
  | nil => intro props H p hp; exact H p hp
  | cons rp rest ih =>
    intro props H p hp
    cases rp <;> simp only [processRequired] at hp
    case str s => exact ih _ (applyRequiredOne_allApOk s props H) p hp
    all_goals exact ih props H p hp

theorem parseSubSchemaC_allApOk (gtn : Json → Option SNode × List PErr)
    (H : ∀ j c, (gtn j).1 = some c → allApOk c) (property : String) (j : Json) :
    ∀ c ∈ (parseSubSchemaC gtn property j).1, allApOk c := by
  intro c hc
  simp only [parseSubSchemaC] at hc
  split at hc
  · split at hc
    · exact compileList_allApOk gtn H _ c hc
    · simp at hc
  · simp at hc


theorem compileNumberNode_allApOk (id : String) (j : Json) : allApOk (compileNumberNode id j) :=
  allApOk_leaf _ rfl (fun htag => nomatch htag)

theorem compileStringNode_allApOk (id : String) (j : Json) :
    allApOk (compileStringNode id j).1 :=
  allApOk_leaf _ rfl (fun htag => nomatch htag)

theorem compileArrayNode_allApOk (gtn : Json → Option SNode × List PErr)
    (H : ∀ j c, (gtn j).1 = some c → allApOk c) (id : String) (j : Json) :
    allApOk (compileArrayNode gtn id j).1 := by
  refine allApOk_intro _ (fun htag => nomatch htag) ?_
  intro c hc
  simp only [compileArrayNode, SNode.children, SNode.d, List.append_nil, List.nil_append,
    List.map_nil, Option.toList_none, List.mem_append, List.not_mem_nil, or_false,
    false_or] at hc
  rcases hc with (hc | hc) | hc
  · split at hc
    · split at hc
      · simp only [Option.mem_toList, Option.mem_def] at hc
        exact H _ c hc
      · split at hc
        · exact compileList_allApOk gtn H _ c hc
        · split at hc
          · simp only [Option.mem_toList, Option.mem_def] at hc
            exact H _ c hc
          · simp at hc
    · simp at hc
  · split at hc
    · simp only [Option.mem_toList, Option.mem_def] at hc
      exact H _ c hc
    · simp at hc
  · split at hc
    · simp only [Option.mem_toList, Option.mem_def] at hc
      exact H _ c hc
    · simp at hc


theorem compileObjectNode_allApOk (gtn : Json → Option SNode × List PErr)
    (H : ∀ j c, (gtn j).1 = some c → allApOk c) (id : String) (j : Json) :
    allApOk (compileObjectNode gtn id j).1 := by
  refine allApOk_intro _ ?_ ?_
  · intro _
    simp only [compileObjectNode, SNode.d]
    split <;> rfl
  · intro c hc
    simp only [compileObjectNode, SNode.children, SNode.d, List.append_nil, List.nil_append,
      List.map_nil, Option.toList_none, List.mem_append, List.not_mem_nil, or_false,
      false_or] at hc
    rcases hc with ((hc | hc) | hc) | hc
    · obtain ⟨p, hp, rfl⟩ := List.mem_map.mp hc
      split at hp
      · refine processRequired_allApOk _ _ ?_ p hp
        split
        · exact compileMembers_allApOk gtn H _
        · intro p0 hp0
          simp at hp0
      · simp only [] at hp
        split at hp
        · exact compileMembers_allApOk gtn H _ p hp
        · simp at hp
    · split at hc
      · exact compilePatternProps_allApOk gtn H _ c hc
      · simp at hc
    · obtain ⟨p, hp, rfl⟩ := List.mem_map.mp hc
      split at hp
      · simp at hp
      · split at hp
        · exact compileMembers_allApOk gtn H _ p hp
        · simp at hp
    · split at hc
      · case _ c2 heq =>
        simp only [Option.mem_toList, Option.mem_def, Option.some.injEq] at hc
        subst hc
        split at heq
        · cases heq
        · exact H _ c2 heq
      · simp only [Option.mem_toList, Option.mem_def, Option.some.injEq] at hc
        subst hc
        exact allApOk_defaultTrue


theorem allApOk_override (b : SNode) (ao an oo : List SNode) (ref typeStr : String)
    (nt : Option SNode) (hb : allApOk b)
    (hao : ∀ c ∈ ao, allApOk c) (han : ∀ c ∈ an, allApOk c) (hoo : ∀ c ∈ oo, allApOk c)
    (hnt : ∀ c, nt = some c → allApOk c) :
    allApOk (SNode.mk { b.d with allOf := ao, anyOf := an, oneOf := oo, ref := ref, typeStr := typeStr, notNode := nt }) := by
  refine allApOk_intro _ ?_ ?_
  · intro htag
    exact allApOk_self b hb htag
  · intro c hc
    simp only [SNode.children, SNode.d, List.mem_append, List.mem_map, Option.mem_toList,
      Option.mem_def] at hc
    rcases hc with (((((((((((h | h) | h) | h) | h) | h) | h) | h) | h) | h) | h) | h) | h
    · exact hao c h
    · exact han c h
    · exact hoo c h
    · exact hnt c h
    all_goals refine allApOk_child b c hb ?_
    all_goals simp only [SNode.children, SNode.d, List.mem_append, List.mem_map,
      Option.mem_toList, Option.mem_def]
    all_goals aesop

set_option maxHeartbeats 1600000 in
theorem getTypedNode_allApOk : ∀ (fuel : Nat) (j : Json) (n : SNode),
    (getTypedNode fuel j).1 = some n → allApOk n := by
  intro fuel
  induction fuel with
  | zero => intro j n h; simp [getTypedNode] at h
  | succ fuel ih =>
    intro j n h
    cases j with
    | arr xs =>
      simp only [getTypedNode, Option.some.injEq] at h
      subst h
      refine allApOk_intro _ (fun htag => nomatch htag) ?_
      intro c hc
      simp only [SNode.children, SNode.d, List.append_nil, List.nil_append,
        List.map_nil, Option.toList_none, List.mem_append, List.not_mem_nil, or_false,
        false_or] at hc
      exact compileList_allApOk _ ih _ c hc
    | bool b =>
      simp only [getTypedNode, Option.some.injEq] at h
      subst h
      exact allApOk_leaf _ rfl (fun htag => nomatch htag)
    | null =>
      simp only [getTypedNode, Option.some.injEq] at h
      subst h
      exact allApOk_leaf _ rfl (fun htag => nomatch htag)
    | int v => simp [getTypedNode] at h
    | num v => simp [getTypedNode] at h
    | str v => simp [getTypedNode] at h
    | undefined => simp [getTypedNode] at h
    | obj ms =>
      simp only [getTypedNode, Option.some.injEq] at h
      subst h
      refine allApOk_override _ _ _ _ _ _ _ ?_ ?_ ?_ ?_ ?_
      · split
        · exact allApOk_leaf _ rfl (fun htag => nomatch htag)
        · split
          · exact allApOk_leaf _ rfl (fun htag => nomatch htag)
          · split
            · exact compileNumberNode_allApOk _ _
            · split
              · exact compileArrayNode_allApOk _ ih _ _
              · split
                · exact compileStringNode_allApOk _ _
                · split
                  · exact allApOk_leaf _ rfl (fun htag => nomatch htag)
                  · split
                    · exact compileObjectNode_allApOk _ ih _ _
                    · exact allApOk_leaf _ rfl (fun htag => nomatch htag)
      · exact parseSubSchemaC_allApOk _ ih _ _
      · exact parseSubSchemaC_allApOk _ ih _ _
      · exact parseSubSchemaC_allApOk _ ih _ _
      · intro c hcc
        split at hcc
        · cases hcc
        · exact ih _ c hcc


theorem resolveList_mem (res : SNode → ResolverState → SNode × ResolverState) :
    ∀ (l : List SNode) (σ : ResolverState) (c : SNode), c ∈ (resolveList res l σ).1 →
      ∃ c0 ∈ l, ∃ σ0, c = (res c0 σ0).1 := by
  intro l
  induction l with
  | nil => intro σ c hc; simp [resolveList] at hc
  | cons n rest ih =>
    intro σ c hc
    simp only [resolveList, List.mem_cons] at hc
    rcases hc with rfl | hc
    · exact ⟨n, by simp, σ, rfl⟩
    · obtain ⟨c0, hc0, σ0, rfl⟩ := ih _ c hc
      exact ⟨c0, by simp [hc0], σ0, rfl⟩

theorem resolvePairs_mem (res : SNode → ResolverState → SNode × ResolverState) :
    ∀ (l : List (String × SNode)) (σ : ResolverState) (p : String × SNode),
      p ∈ (resolvePairs res l σ).1 →
      ∃ p0 ∈ l, ∃ σ0, p = (p0.1, (res p0.2 σ0).1) := by
  intro l
  induction l with
  | nil => intro σ p hp; simp [resolvePairs] at hp
  | cons kv rest ih =>
    intro σ p hp
    simp only [resolvePairs, List.mem_cons] at hp
    rcases hp with rfl | hp
    · exact ⟨kv, by simp, σ, rfl⟩
    · obtain ⟨p0, hp0, σ0, rfl⟩ := ih _ p hp
      exact ⟨p0, by simp [hp0], σ0, rfl⟩

theorem resolveOpt_mem (res : SNode → ResolverState → SNode × ResolverState)
    (o : Option SNode) (σ : ResolverState) (c : SNode)
    (h : (resolveOpt res o σ).1 = some c) :
    ∃ c0, o = some c0 ∧ ∃ σ0, c = (res c0 σ0).1 := by
  cases o with
  | none => simp [resolveOpt] at h
  | some n =>
    simp only [resolveOpt, Option.some.injEq] at h
    exact ⟨n, rfl, σ, h.symm⟩


theorem memch_allOf (n c : SNode) (h : c ∈ n.d.allOf) : c ∈ n.children := by
  simp only [SNode.children, List.mem_append]; tauto

theorem memch_anyOf (n c : SNode) (h : c ∈ n.d.anyOf) : c ∈ n.children := by
  simp only [SNode.children, List.mem_append]; tauto

theorem memch_oneOf (n c : SNode) (h : c ∈ n.d.oneOf) : c ∈ n.children := by
  simp only [SNode.children, List.mem_append]; tauto

theorem memch_patternProps (n c : SNode) (h : c ∈ n.d.objF.patternProperties) :
    c ∈ n.children := by
  simp only [SNode.children, List.mem_append]; tauto

theorem memch_items (n c : SNode) (h : c ∈ n.d.arrF.items) : c ∈ n.children := by
  simp only [SNode.children, List.mem_append]; tauto

theorem memch_notNode (n c : SNode) (h : n.d.notNode = some c) : c ∈ n.children := by
  have hf : c ∈ n.d.notNode.toList := by simp [h]
  simp only [SNode.children, List.mem_append]; tauto

theorem memch_ap (n c : SNode) (h : n.d.objF.additionalProperties = some c) :
    c ∈ n.children := by
  have hf : c ∈ n.d.objF.additionalProperties.toList := by simp [h]
  simp only [SNode.children, List.mem_append]; tauto

theorem memch_pn (n c : SNode) (h : n.d.objF.propertyNames = some c) : c ∈ n.children := by
  have hf : c ∈ n.d.objF.propertyNames.toList := by simp [h]
  simp only [SNode.children, List.mem_append]; tauto

theorem memch_contains (n c : SNode) (h : n.d.arrF.contains = some c) : c ∈ n.children := by
  have hf : c ∈ n.d.arrF.contains.toList := by simp [h]
  simp only [SNode.children, List.mem_append]; tauto

theorem memch_addItems (n c : SNode) (h : n.d.arrF.additionalItems = some c) :
    c ∈ n.children := by
  have hf : c ∈ n.d.arrF.additionalItems.toList := by simp [h]
  simp only [SNode.children, List.mem_append]; tauto

theorem memch_defs (n c : SNode) (k : String) (h : (k, c) ∈ n.d.defs) : c ∈ n.children := by
  have hf : c ∈ n.d.defs.map Prod.snd := List.mem_map.mpr ⟨(k, c), h, rfl⟩
  simp only [SNode.children, List.mem_append]; tauto

theorem memch_props (n c : SNode) (k : String) (h : (k, c) ∈ n.d.objF.properties) :
    c ∈ n.children := by
  have hf : c ∈ n.d.objF.properties.map Prod.snd := List.mem_map.mpr ⟨(k, c), h, rfl⟩
  simp only [SNode.children, List.mem_append]; tauto

theorem memch_depSch (n c : SNode) (k : String) (h : (k, c) ∈ n.d.objF.dependentSchemas) :
    c ∈ n.children := by
  have hf : c ∈ n.d.objF.dependentSchemas.map Prod.snd := List.mem_map.mpr ⟨(k, c), h, rfl⟩
  simp only [SNode.children, List.mem_append]; tauto


set_option maxHeartbeats 1600000 in
theorem resolveNodePass_allApOk (root : SNode) : ∀ (fuel : Nat) (n : SNode) (σ : ResolverState),
    allApOk n → allApOk (resolveNodePass root fuel n σ).1 := by
  intro fuel
  induction fuel with
  | zero => intro n σ h; exact h
  | succ fuel ih =>
    intro n σ h
    simp only [resolveNodePass]
    cases htag : n.d.tag with
    | objectT =>
      simp only [htag]
      refine allApOk_intro _ ?_ ?_
      · intro ht
        have hap : n.d.objF.additionalProperties.isSome = true := allApOk_self n h htag
        obtain ⟨a, ha⟩ := Option.isSome_iff_exists.mp hap
        have ha2 : (match n with | SNode.mk d => d).objF.additionalProperties = some a := ha
        simp [SNode.d, ha, ha2, resolveOpt]
      · intro c hc
        simp only [SNode.children, SNode.d, List.mem_append, List.mem_map,
          Option.mem_toList, Option.mem_def] at hc
        rcases hc with (((((((((((hx | hx) | hx) | hx) | hx) | hx) | hx) | hx) | hx) | hx) | hx) | hx) | hx
        · obtain ⟨c0, hc0, σ0, rfl⟩ := resolveList_mem _ _ _ _ hx
          exact ih c0 σ0 (allApOk_child n c0 h (memch_allOf n c0 hc0))
        · obtain ⟨c0, hc0, σ0, rfl⟩ := resolveList_mem _ _ _ _ hx
          exact ih c0 σ0 (allApOk_child n c0 h (memch_anyOf n c0 hc0))
        · obtain ⟨c0, hc0, σ0, rfl⟩ := resolveList_mem _ _ _ _ hx
          exact ih c0 σ0 (allApOk_child n c0 h (memch_oneOf n c0 hc0))
        · obtain ⟨c0, hc0, σ0, rfl⟩ := resolveOpt_mem _ _ _ _ hx
          exact ih c0 σ0 (allApOk_child n c0 h (memch_notNode n c0 hc0))
        · obtain ⟨p, hp, rfl⟩ := hx
          obtain ⟨p0, hp0, σ0, rfl⟩ := resolvePairs_mem _ _ _ _ hp
          exact ih p0.2 σ0 (allApOk_child n p0.2 h (memch_defs n p0.2 p0.1 hp0))
        · obtain ⟨p, hp, rfl⟩ := hx
          obtain ⟨p0, hp0, σ0, rfl⟩ := resolvePairs_mem _ _ _ _ hp
          exact ih p0.2 σ0 (allApOk_child n p0.2 h (memch_props n p0.2 p0.1 hp0))
        · obtain ⟨c0, hc0, σ0, rfl⟩ := resolveList_mem _ _ _ _ hx
          exact ih c0 σ0 (allApOk_child n c0 h (memch_patternProps n c0 hc0))
        · obtain ⟨p, hp, rfl⟩ := hx
          obtain ⟨p0, hp0, σ0, rfl⟩ := resolvePairs_mem _ _ _ _ hp
          exact ih p0.2 σ0 (allApOk_child n p0.2 h (memch_depSch n p0.2 p0.1 hp0))
        · obtain ⟨c0, hc0, σ0, rfl⟩ := resolveOpt_mem _ _ _ _ hx
          exact ih c0 σ0 (allApOk_child n c0 h (memch_ap n c0 hc0))
        · exact allApOk_child n c h (memch_pn n c hx)
        · exact allApOk_child n c h (memch_items n c hx)
        · exact allApOk_child n c h (memch_contains n c hx)
        · exact allApOk_child n c h (memch_addItems n c hx)
    | arrayT =>
      simp only [htag]
      refine allApOk_intro _ ?_ ?_
      · intro ht
        exact nomatch ht
      · intro c hc
        simp only [SNode.children, SNode.d, List.mem_append, List.mem_map,
          Option.mem_toList, Option.mem_def] at hc
        rcases hc with (((((((((((hx | hx) | hx) | hx) | hx) | hx) | hx) | hx) | hx) | hx) | hx) | hx) | hx
        · obtain ⟨c0, hc0, σ0, rfl⟩ := resolveList_mem _ _ _ _ hx
          exact ih c0 σ0 (allApOk_child n c0 h (memch_allOf n c0 hc0))
        · obtain ⟨c0, hc0, σ0, rfl⟩ := resolveList_mem _ _ _ _ hx
          exact ih c0 σ0 (allApOk_child n c0 h (memch_anyOf n c0 hc0))
        · obtain ⟨c0, hc0, σ0, rfl⟩ := resolveList_mem _ _ _ _ hx
          exact ih c0 σ0 (allApOk_child n c0 h (memch_oneOf n c0 hc0))
        · obtain ⟨c0, hc0, σ0, rfl⟩ := resolveOpt_mem _ _ _ _ hx
          exact ih c0 σ0 (allApOk_child n c0 h (memch_notNode n c0 hc0))
        · obtain ⟨p, hp, rfl⟩ := hx
          obtain ⟨p0, hp0, σ0, rfl⟩ := resolvePairs_mem _ _ _ _ hp
          exact ih p0.2 σ0 (allApOk_child n p0.2 h (memch_defs n p0.2 p0.1 hp0))
        · obtain ⟨p, hp, rfl⟩ := hx
          exact allApOk_child n p.2 h (memch_props n p.2 p.1 hp)
        · exact allApOk_child n c h (memch_patternProps n c hx)
        · obtain ⟨p, hp, rfl⟩ := hx
          exact allApOk_child n p.2 h (memch_depSch n p.2 p.1 hp)
        · exact allApOk_child n c h (memch_ap n c hx)
        · exact allApOk_child n c h (memch_pn n c hx)
        · obtain ⟨c0, hc0, σ0, rfl⟩ := resolveList_mem _ _ _ _ hx
          exact ih c0 σ0 (allApOk_child n c0 h (memch_items n c0 hc0))
        · obtain ⟨c0, hc0, σ0, rfl⟩ := resolveOpt_mem _ _ _ _ hx
          exact ih c0 σ0 (allApOk_child n c0 h (memch_contains n c0 hc0))
        · obtain ⟨c0, hc0, σ0, rfl⟩ := resolveOpt_mem _ _ _ _ hx
          exact ih c0 σ0 (allApOk_child n c0 h (memch_addItems n c0 hc0))
    | undefinedT =>
      simp only [htag]
      refine allApOk_intro _ ?_ ?_
      · intro ht
        exact nomatch ht
      · intro c hc
        simp only [SNode.children, SNode.d, List.mem_append, List.mem_map,
          Option.mem_toList, Option.mem_def] at hc
        rcases hc with (((((((((((hx | hx) | hx) | hx) | hx) | hx) | hx) | hx) | hx) | hx) | hx) | hx) | hx
        · obtain ⟨c0, hc0, σ0, rfl⟩ := resolveList_mem _ _ _ _ hx
          exact ih c0 σ0 (allApOk_child n c0 h (memch_allOf n c0 hc0))
        · obtain ⟨c0, hc0, σ0, rfl⟩ := resolveList_mem _ _ _ _ hx
          exact ih c0 σ0 (allApOk_child n c0 h (memch_anyOf n c0 hc0))
        · obtain ⟨c0, hc0, σ0, rfl⟩ := resolveList_mem _ _ _ _ hx
          exact ih c0 σ0 (allApOk_child n c0 h (memch_oneOf n c0 hc0))
        · obtain ⟨c0, hc0, σ0, rfl⟩ := resolveOpt_mem _ _ _ _ hx
          exact ih c0 σ0 (allApOk_child n c0 h (memch_notNode n c0 hc0))
        · obtain ⟨p, hp, rfl⟩ := hx
          obtain ⟨p0, hp0, σ0, rfl⟩ := resolvePairs_mem _ _ _ _ hp
          exact ih p0.2 σ0 (allApOk_child n p0.2 h (memch_defs n p0.2 p0.1 hp0))
        · obtain ⟨p, hp, rfl⟩ := hx
          exact allApOk_child n p.2 h (memch_props n p.2 p.1 hp)
        · exact allApOk_child n c h (memch_patternProps n c hx)
        · obtain ⟨p, hp, rfl⟩ := hx
          exact allApOk_child n p.2 h (memch_depSch n p.2 p.1 hp)
        · exact allApOk_child n c h (memch_ap n c hx)
        · exact allApOk_child n c h (memch_pn n c hx)
        · exact allApOk_child n c h (memch_items n c hx)
        · exact allApOk_child n c h (memch_contains n c hx)
        · exact allApOk_child n c h (memch_addItems n c hx)
    | nullT =>
      simp only [htag]
      refine allApOk_intro _ ?_ ?_
      · intro ht
        exact nomatch ht
      · intro c hc
        simp only [SNode.children, SNode.d, List.mem_append, List.mem_map,
          Option.mem_toList, Option.mem_def] at hc
        rcases hc with (((((((((((hx | hx) | hx) | hx) | hx) | hx) | hx) | hx) | hx) | hx) | hx) | hx) | hx
        · obtain ⟨c0, hc0, σ0, rfl⟩ := resolveList_mem _ _ _ _ hx
          exact ih c0 σ0 (allApOk_child n c0 h (memch_allOf n c0 hc0))
        · obtain ⟨c0, hc0, σ0, rfl⟩ := resolveList_mem _ _ _ _ hx
          exact ih c0 σ0 (allApOk_child n c0 h (memch_anyOf n c0 hc0))
        · obtain ⟨c0, hc0, σ0, rfl⟩ := resolveList_mem _ _ _ _ hx
          exact ih c0 σ0 (allApOk_child n c0 h (memch_oneOf n c0 hc0))
        · obtain ⟨c0, hc0, σ0, rfl⟩ := resolveOpt_mem _ _ _ _ hx
          exact ih c0 σ0 (allApOk_child n c0 h (memch_notNode n c0 hc0))
        · obtain ⟨p, hp, rfl⟩ := hx
          obtain ⟨p0, hp0, σ0, rfl⟩ := resolvePairs_mem _ _ _ _ hp
          exact ih p0.2 σ0 (allApOk_child n p0.2 h (memch_defs n p0.2 p0.1 hp0))
        · obtain ⟨p, hp, rfl⟩ := hx
          exact allApOk_child n p.2 h (memch_props n p.2 p.1 hp)
        · exact allApOk_child n c h (memch_patternProps n c hx)
        · obtain ⟨p, hp, rfl⟩ := hx
          exact allApOk_child n p.2 h (memch_depSch n p.2 p.1 hp)
        · exact allApOk_child n c h (memch_ap n c hx)
        · exact allApOk_child n c h (memch_pn n c hx)
        · exact allApOk_child n c h (memch_items n c hx)
        · exact allApOk_child n c h (memch_contains n c hx)
        · exact allApOk_child n c h (memch_addItems n c hx)
    | booleanT =>
      simp only [htag]
      refine allApOk_intro _ ?_ ?_
      · intro ht
        exact nomatch ht
      · intro c hc
        simp only [SNode.children, SNode.d, List.mem_append, List.mem_map,
          Option.mem_toList, Option.mem_def] at hc
        rcases hc with (((((((((((hx | hx) | hx) | hx) | hx) | hx) | hx) | hx) | hx) | hx) | hx) | hx) | hx
        · obtain ⟨c0, hc0, σ0, rfl⟩ := resolveList_mem _ _ _ _ hx
          exact ih c0 σ0 (allApOk_child n c0 h (memch_allOf n c0 hc0))
        · obtain ⟨c0, hc0, σ0, rfl⟩ := resolveList_mem _ _ _ _ hx
          exact ih c0 σ0 (allApOk_child n c0 h (memch_anyOf n c0 hc0))
        · obtain ⟨c0, hc0, σ0, rfl⟩ := resolveList_mem _ _ _ _ hx
          exact ih c0 σ0 (allApOk_child n c0 h (memch_oneOf n c0 hc0))
        · obtain ⟨c0, hc0, σ0, rfl⟩ := resolveOpt_mem _ _ _ _ hx
          exact ih c0 σ0 (allApOk_child n c0 h (memch_notNode n c0 hc0))
        · obtain ⟨p, hp, rfl⟩ := hx
          obtain ⟨p0, hp0, σ0, rfl⟩ := resolvePairs_mem _ _ _ _ hp
          exact ih p0.2 σ0 (allApOk_child n p0.2 h (memch_defs n p0.2 p0.1 hp0))
        · obtain ⟨p, hp, rfl⟩ := hx
          exact allApOk_child n p.2 h (memch_props n p.2 p.1 hp)
        · exact allApOk_child n c h (memch_patternProps n c hx)
        · obtain ⟨p, hp, rfl⟩ := hx
          exact allApOk_child n p.2 h (memch_depSch n p.2 p.1 hp)
        · exact allApOk_child n c h (memch_ap n c hx)
        · exact allApOk_child n c h (memch_pn n c hx)
        · exact allApOk_child n c h (memch_items n c hx)
        · exact allApOk_child n c h (memch_contains n c hx)
        · exact allApOk_child n c h (memch_addItems n c hx)
    | numberT =>
      simp only [htag]
      refine allApOk_intro _ ?_ ?_
      · intro ht
        exact nomatch ht
      · intro c hc
        simp only [SNode.children, SNode.d, List.mem_append, List.mem_map,
          Option.mem_toList, Option.mem_def] at hc
        rcases hc with (((((((((((hx | hx) | hx) | hx) | hx) | hx) | hx) | hx) | hx) | hx) | hx) | hx) | hx
        · obtain ⟨c0, hc0, σ0, rfl⟩ := resolveList_mem _ _ _ _ hx
          exact ih c0 σ0 (allApOk_child n c0 h (memch_allOf n c0 hc0))
        · obtain ⟨c0, hc0, σ0, rfl⟩ := resolveList_mem _ _ _ _ hx
          exact ih c0 σ0 (allApOk_child n c0 h (memch_anyOf n c0 hc0))
        · obtain ⟨c0, hc0, σ0, rfl⟩ := resolveList_mem _ _ _ _ hx
          exact ih c0 σ0 (allApOk_child n c0 h (memch_oneOf n c0 hc0))
        · obtain ⟨c0, hc0, σ0, rfl⟩ := resolveOpt_mem _ _ _ _ hx
          exact ih c0 σ0 (allApOk_child n c0 h (memch_notNode n c0 hc0))
        · obtain ⟨p, hp, rfl⟩ := hx
          obtain ⟨p0, hp0, σ0, rfl⟩ := resolvePairs_mem _ _ _ _ hp
          exact ih p0.2 σ0 (allApOk_child n p0.2 h (memch_defs n p0.2 p0.1 hp0))
        · obtain ⟨p, hp, rfl⟩ := hx
          exact allApOk_child n p.2 h (memch_props n p.2 p.1 hp)
        · exact allApOk_child n c h (memch_patternProps n c hx)
        · obtain ⟨p, hp, rfl⟩ := hx
          exact allApOk_child n p.2 h (memch_depSch n p.2 p.1 hp)
        · exact allApOk_child n c h (memch_ap n c hx)
        · exact allApOk_child n c h (memch_pn n c hx)
        · exact allApOk_child n c h (memch_items n c hx)
        · exact allApOk_child n c h (memch_contains n c hx)
        · exact allApOk_child n c h (memch_addItems n c hx)
    | stringT =>
      simp only [htag]
      refine allApOk_intro _ ?_ ?_
      · intro ht
        exact nomatch ht
      · intro c hc
        simp only [SNode.children, SNode.d, List.mem_append, List.mem_map,
          Option.mem_toList, Option.mem_def] at hc
        rcases hc with (((((((((((hx | hx) | hx) | hx) | hx) | hx) | hx) | hx) | hx) | hx) | hx) | hx) | hx
        · obtain ⟨c0, hc0, σ0, rfl⟩ := resolveList_mem _ _ _ _ hx
          exact ih c0 σ0 (allApOk_child n c0 h (memch_allOf n c0 hc0))
        · obtain ⟨c0, hc0, σ0, rfl⟩ := resolveList_mem _ _ _ _ hx
          exact ih c0 σ0 (allApOk_child n c0 h (memch_anyOf n c0 hc0))
        · obtain ⟨c0, hc0, σ0, rfl⟩ := resolveList_mem _ _ _ _ hx
          exact ih c0 σ0 (allApOk_child n c0 h (memch_oneOf n c0 hc0))
        · obtain ⟨c0, hc0, σ0, rfl⟩ := resolveOpt_mem _ _ _ _ hx
          exact ih c0 σ0 (allApOk_child n c0 h (memch_notNode n c0 hc0))
        · obtain ⟨p, hp, rfl⟩ := hx
          obtain ⟨p0, hp0, σ0, rfl⟩ := resolvePairs_mem _ _ _ _ hp
          exact ih p0.2 σ0 (allApOk_child n p0.2 h (memch_defs n p0.2 p0.1 hp0))
        · obtain ⟨p, hp, rfl⟩ := hx
          exact allApOk_child n p.2 h (memch_props n p.2 p.1 hp)
        · exact allApOk_child n c h (memch_patternProps n c hx)
        · obtain ⟨p, hp, rfl⟩ := hx
          exact allApOk_child n p.2 h (memch_depSch n p.2 p.1 hp)
        · exact allApOk_child n c h (memch_ap n c hx)
        · exact allApOk_child n c h (memch_pn n c hx)
        · exact allApOk_child n c h (memch_items n c hx)
        · exact allApOk_child n c h (memch_contains n c hx)
        · exact allApOk_child n c h (memch_addItems n c hx)


theorem noPNIS_nil : noPNIS ([] : List VError) := by
  intro k p q hm
  exact absurd hm (List.not_mem_nil _)

theorem noPNIS_single (e : VError)
    (he : ∀ k p q, e ≠ VError.propertyNotInSchema k p q) : noPNIS [e] := by
  intro k p q hm
  rw [List.mem_singleton] at hm
  exact he k p q hm.symm

theorem noPNIS_append (a b : List VError) (ha : noPNIS a) (hb : noPNIS b) :
    noPNIS (a ++ b) := by
  intro k p q hm
  rcases List.mem_append.mp hm with hm | hm
  · exact ha k p q hm
  · exact hb k p q hm

theorem noPNIS_cons (e : VError) (b : List VError)
    (he : ∀ k p q, e ≠ VError.propertyNotInSchema k p q) (hb : noPNIS b) :
    noPNIS (e :: b) := by
  intro k p q hm
  rcases List.mem_cons.mp hm with hm | hm
  · exact he k p q hm.symm
  · exact hb k p q hm

theorem conjIdx_noPNIS (vn : List Step → SNode → Json → Bool × List VError)
    (path : List Step) (mkf : Nat → Step) (j : Json) :
    ∀ (l : List SNode) (i : Nat),
      (∀ c ∈ l, ∀ p2 j2, noPNIS (vn p2 c j2).2) →
      noPNIS (conjIdx vn path mkf j l i).2 := by
  intro l
  induction l with
  | nil => intro i H; exact noPNIS_nil
  | cons c rest ih =>
    intro i H
    exact noPNIS_append _ _ (H c (by simp) _ _)
      (ih (i + 1) (fun c2 hc2 => H c2 (by simp [hc2])))

theorem requiredScan_noPNIS (ptr : String) (j : Json) :
    ∀ ks, noPNIS (requiredScan ptr j ks).2 := by
  intro ks
  induction ks with
  | nil => exact noPNIS_nil
  | cons k rest ih =>
    simp only [requiredScan]
    split
    · exact ih
    · exact noPNIS_cons _ _ (fun _ _ _ hh => nomatch hh) ih

theorem depReqFold_noPNIS (ptr : String) (j : Json) :
    ∀ (deps : List String) (acc : Bool × List VError), noPNIS acc.2 →
      noPNIS ((deps.foldl (fun acc d =>
        if j.hasKey d then acc
        else (false, acc.2 ++ [VError.dependentRequiredNotFound d ptr j])) acc)).2 := by
  intro deps
  induction deps with
  | nil => intro acc h; exact h
  | cons d rest ih =>
    intro acc h
    rw [List.foldl_cons]
    split
    · exact ih acc h
    · exact ih _ (noPNIS_append _ _ h
        (noPNIS_single _ (fun _ _ _ hh => nomatch hh)))

theorem depReqScan_noPNIS (ptr : String) (j : Json) :
    ∀ l, noPNIS (depReqScan ptr j l).2 := by
  intro l
  induction l with
  | nil => exact noPNIS_nil
  | cons kv rest ih =>
    simp only [depReqScan]
    refine noPNIS_append _ _ ?_ ih
    split
    · exact depReqFold_noPNIS ptr j _ _ noPNIS_nil
    · exact noPNIS_nil

theorem depSchScan_noPNIS (vn : List Step → SNode → Json → Bool × List VError)
    (path : List Step) (ptr : String) (j : Json) :
    ∀ l, (∀ p ∈ l, ∀ p2 j2, noPNIS (vn p2 (Prod.snd p) j2).2) →
      noPNIS (depSchScan vn path ptr j l).2 := by
  intro l
  induction l with
  | nil => intro H; exact noPNIS_nil
  | cons kv rest ih =>
    intro H
    simp only [depSchScan]
    refine noPNIS_append _ _ ?_ (ih (fun p hp => H p (by simp [hp])))
    split
    · refine noPNIS_append _ _ (H kv (by simp) _ _) ?_
      split
      · exact noPNIS_nil
      · exact noPNIS_single _ (fun _ _ _ hh => nomatch hh)
    · exact noPNIS_nil

theorem patternScan_noPNIS (vn : List Step → SNode → Json → Bool × List VError)
    (path : List Step) (key : String) (value : Json) :
    ∀ (l : List SNode) (i : Nat),
      (∀ c ∈ l, ∀ p2 j2, noPNIS (vn p2 c j2).2) →
      noPNIS (patternScan vn path key value l i).2.2 := by
  intro l
  induction l with
  | nil => intro i H; exact noPNIS_nil
  | cons pp rest ih =>
    intro i H
    simp only [patternScan]
    split
    · exact noPNIS_append _ _ (H pp (by simp) _ _)
        (ih (i + 1) (fun c hc => H c (by simp [hc])))
    · exact ih (i + 1) (fun c hc => H c (by simp [hc]))


theorem memberScan_noPNIS (vn : List Step → SNode → Json → Bool × List VError)
    (path : List Step) (n : SNode) (ptr : String) (j : Json)
    (hap : n.d.objF.additionalProperties.isSome = true)
    (Hprops : ∀ k c, lookupAssoc n.d.objF.properties k = some c →
      ∀ p2 j2, noPNIS (vn p2 c j2).2)
    (Hpp : ∀ c ∈ n.d.objF.patternProperties, ∀ p2 j2, noPNIS (vn p2 c j2).2)
    (Hap : ∀ c, n.d.objF.additionalProperties = some c → ∀ p2 j2, noPNIS (vn p2 c j2).2)
    (Hpn : ∀ c, n.d.objF.propertyNames = some c → ∀ p2 j2, noPNIS (vn p2 c j2).2) :
    ∀ ms, noPNIS (memberScan vn path n ptr j ms).2 := by
  intro ms
  induction ms with
  | nil => exact noPNIS_nil
  | cons kv rest ih =>
    simp only [memberScan]
    refine noPNIS_append _ _ (noPNIS_append _ _ ?_ ?_) ih
    · split
      · rename_i child hL
        exact Hprops kv.1 child hL _ _
      · split
        · exact patternScan_noPNIS vn path kv.1 kv.2 _ 0 Hpp
        · split
          · rename_i ap hA
            refine noPNIS_append _ _ (Hap ap hA _ _) ?_
            split
            · exact noPNIS_nil
            · exact noPNIS_single _ (fun _ _ _ hh => nomatch hh)
          · rename_i hA
            rw [hA] at hap
            cases hap
    · split
      · rename_i pnn hN
        refine noPNIS_append _ _ (Hpn pnn hN _ _) ?_
        split
        · exact noPNIS_nil
        · exact noPNIS_single _ (fun _ _ _ hh => nomatch hh)
      · exact noPNIS_nil

theorem arrayLoop_noPNIS (vn : List Step → SNode → Json → Bool × List VError)
    (path : List Step) (af : ArrF SNode) (ptr : String) (jarr : Json)
    (Hit : ∀ c ∈ af.items, ∀ p2 j2, noPNIS (vn p2 c j2).2)
    (Hai : ∀ c, af.additionalItems = some c → ∀ p2 j2, noPNIS (vn p2 c j2).2) :
    ∀ (vs : List Json) (i : Nat) (seen : List Json) (cv : Bool),
      noPNIS (arrayLoop vn path af ptr jarr vs i seen cv).2.1 := by
  intro vs
  induction vs with
  | nil => intro i seen cv; exact noPNIS_nil
  | cons v rest ih =>
    intro i seen cv
    simp only [arrayLoop]
    refine noPNIS_append _ _ (noPNIS_append _ _ ?_ ?_) (ih _ _ _)
    · split
      · exact noPNIS_single _ (fun _ _ _ hh => nomatch hh)
      · exact noPNIS_nil
    · split
      · split
        · rename_i c hG
          exact Hit c (List.get?_mem hG) _ _
        · split
          · rename_i ai hA
            exact Hai ai hA _ _
          · exact noPNIS_nil
      · split
        · rename_i c cs hI
          exact Hit c (by simp [hI]) _ _
        · exact noPNIS_nil

theorem validateCommonPart_noPNIS (vn : List Step → SNode → Json → Bool × List VError)
    (fuelDefs : Nat) (root : SNode) (path : List Step) (n : SNode) (j : Json)
    (Hao : ∀ c ∈ n.d.allOf, ∀ p2 j2, noPNIS (vn p2 c j2).2)
    (Hnot : ∀ c, n.d.notNode = some c → ∀ p2 j2, noPNIS (vn p2 c j2).2)
    (Href : ∀ rp m, getNode root rp = some m → noPNIS (vn rp m j).2) :
    noPNIS (validateCommonPart vn fuelDefs root path n j).2 := by
  simp only [validateCommonPart]
  refine noPNIS_append _ _ (noPNIS_append _ _ (noPNIS_append _ _ (noPNIS_append _ _
    (noPNIS_append _ _ (noPNIS_append _ _ ?_ ?_) ?_) ?_) ?_) ?_) ?_
  · exact conjIdx_noPNIS vn path Step.allOf j n.d.allOf 0 Hao
  · split
    · rename_i rp hR
      split
      · rename_i m hG
        exact Href rp m hG
      · exact noPNIS_nil
    · exact noPNIS_nil
  · split
    · exact noPNIS_nil
    · split
      · exact noPNIS_nil
      · exact noPNIS_single _ (fun _ _ _ hh => nomatch hh)
  · split
    · rename_i m hN
      split
      · exact Hnot m hN _ _
      · exact noPNIS_nil
    · exact noPNIS_nil
  · split
    · exact noPNIS_nil
    · split
      · exact noPNIS_nil
      · exact noPNIS_single _ (fun _ _ _ hh => nomatch hh)
  · split
    · exact noPNIS_nil
    · split
      · exact noPNIS_nil
      · exact noPNIS_single _ (fun _ _ _ hh => nomatch hh)
  · split
    · split
      · exact noPNIS_nil
      · exact noPNIS_single _ (fun _ _ _ hh => nomatch hh)
    · exact noPNIS_nil


set_option maxHeartbeats 1600000 in
theorem validateNode_noPNIS (root : SNode) (hroot : allApOk root) :
    ∀ (fuel : Nat) (path : List Step) (n : SNode) (j : Json), allApOk n →
      noPNIS (validateNode root fuel path n j).2 := by
  intro fuel
  induction fuel with
  | zero => intro path n j hn; exact noPNIS_nil
  | succ fuel ih =>
    intro path n j hn
    have hcom : noPNIS (validateCommonPart (validateNode root fuel) fuel root path n j).2 := by
      refine validateCommonPart_noPNIS _ _ _ _ _ _ ?_ ?_ ?_
      · intro c hc p2 j2
        exact ih p2 c j2 (allApOk_child n c hn (memch_allOf n c hc))
      · intro c hc p2 j2
        exact ih p2 c j2 (allApOk_child n c hn (memch_notNode n c hc))
      · intro rp m hg
        exact ih rp m j (getNode_allApOk rp root m hg hroot)
    simp only [validateNode]
    split
    · exact noPNIS_nil
    · split
      · exact noPNIS_single _ (fun _ _ _ hh => nomatch hh)
      · split
        · exact noPNIS_single _ (fun _ _ _ hh => nomatch hh)
        · split
          · -- String variant
            split
            · exact hcom
            · refine noPNIS_append _ _ (noPNIS_append _ _ (noPNIS_append _ _ hcom ?_) ?_) ?_
              · (repeat' split) <;> first | exact noPNIS_nil | exact noPNIS_single _ (fun _ _ _ hh => nomatch hh)
              · (repeat' split) <;> first | exact noPNIS_nil | exact noPNIS_single _ (fun _ _ _ hh => nomatch hh)
              · (repeat' split) <;> first | exact noPNIS_nil | exact noPNIS_single _ (fun _ _ _ hh => nomatch hh)
          · -- Number variant
            split
            · exact hcom
            · refine noPNIS_append _ _ (noPNIS_append _ _ (noPNIS_append _ _ (noPNIS_append _ _
                (noPNIS_append _ _ (noPNIS_append _ _ hcom ?_) ?_) ?_) ?_) ?_) ?_
              · (repeat' split) <;> first | exact noPNIS_nil | exact noPNIS_single _ (fun _ _ _ hh => nomatch hh)
              · (repeat' split) <;> first | exact noPNIS_nil | exact noPNIS_single _ (fun _ _ _ hh => nomatch hh)
              · (repeat' split) <;> first | exact noPNIS_nil | exact noPNIS_single _ (fun _ _ _ hh => nomatch hh)
              · (repeat' split) <;> first | exact noPNIS_nil | exact noPNIS_single _ (fun _ _ _ hh => nomatch hh)
              · (repeat' split) <;> first | exact noPNIS_nil | exact noPNIS_single _ (fun _ _ _ hh => nomatch hh)
              · (repeat' split) <;> first | exact noPNIS_nil | exact noPNIS_single _ (fun _ _ _ hh => nomatch hh)
          · -- Object variant
            rename_i htag
            split
            · exact hcom
            · refine noPNIS_append _ _ (noPNIS_append _ _ (noPNIS_append _ _ (noPNIS_append _ _
                (noPNIS_append _ _ (noPNIS_append _ _ hcom ?_) ?_) ?_) ?_) ?_) ?_
              · (repeat' split) <;> first | exact noPNIS_nil | exact noPNIS_single _ (fun _ _ _ hh => nomatch hh)
              · (repeat' split) <;> first | exact noPNIS_nil | exact noPNIS_single _ (fun _ _ _ hh => nomatch hh)
              · exact requiredScan_noPNIS _ _ _
              · exact depReqScan_noPNIS _ _ _
              · refine depSchScan_noPNIS _ _ _ _ _ ?_
                intro p hp p2 j2
                exact ih p2 p.2 j2 (allApOk_child n p.2 hn (memch_depSch n p.2 p.1 hp))
              · refine memberScan_noPNIS _ _ _ _ _ (allApOk_self n hn htag) ?_ ?_ ?_ ?_ _
                · intro k c hL p2 j2
                  obtain ⟨p, hp, hps⟩ := lookupAssoc_mem _ _ _ hL
                  exact ih p2 c j2 (allApOk_child n c hn
                    (hps ▸ memch_props n p.2 p.1 hp))
                · intro c hc p2 j2
                  exact ih p2 c j2 (allApOk_child n c hn (memch_patternProps n c hc))
                · intro c hc p2 j2
                  exact ih p2 c j2 (allApOk_child n c hn (memch_ap n c hc))
                · intro c hc p2 j2
                  exact ih p2 c j2 (allApOk_child n c hn (memch_pn n c hc))
          · -- Array variant
            split
            · exact hcom
            · split
              · exact noPNIS_append _ _ hcom
                  (noPNIS_single _ (fun _ _ _ hh => nomatch hh))
              · split
                · exact noPNIS_append _ _ hcom
                    (noPNIS_single _ (fun _ _ _ hh => nomatch hh))
                · refine noPNIS_append _ _ (noPNIS_append _ _ hcom ?_) ?_
                  · refine arrayLoop_noPNIS _ _ _ _ _ ?_ ?_ _ _ _ _
                    · intro c hc p2 j2
                      exact ih p2 c j2 (allApOk_child n c hn (memch_items n c hc))
                    · intro c hc p2 j2
                      exact ih p2 c j2 (allApOk_child n c hn (memch_addItems n c hc))
                  · (repeat' split) <;> first | exact noPNIS_nil | exact noPNIS_single _ (fun _ _ _ hh => nomatch hh)
          all_goals exact hcom


theorem parserRun_allApOk (fuel : Nat) (j : Json) (σ : ResolverState) (t : SNode)
    (h : (parserRun fuel j σ).1.rootNode = some t) : allApOk t := by
  cases j with
  | bool b =>
    simp only [parserRun, Option.some.injEq] at h
    subst h
    exact allApOk_setRoot _ (allApOk_leaf _ rfl (fun htag => nomatch htag))
  | obj ms =>
    simp only [parserRun] at h
    split at h
    · cases h
    · rename_i n0 heq
      simp only [Option.some.injEq] at h
      subst h
      exact resolveNodePass_allApOk _ _ _ _
        (allApOk_setRoot _ (getTypedNode_allApOk fuel _ n0 heq))
  | null => simp [parserRun] at h
  | undefined => simp [parserRun] at h
  | int v => simp [parserRun] at h
  | num v => simp [parserRun] at h
  | str v => simp [parserRun] at h
  | arr xs => simp [parserRun] at h

/-- C10: every schema tree the parser hands back satisfies the implicit
invariant — each Object node carries a non-null `additionalProperties`
child (the member initializer's literal-true Boolean node when the
schema omits the keyword, a compiled child otherwise), and consequently
validating any instance against the tree never reaches the
"property not in schema definition" error branch. -/
theorem claim_C10 (fc : Nat) (s : Json) (σ : ResolverState) (t : SNode)
    (h : (parserRun fc s σ).1.rootNode = some t) :
    (∀ m, Desc t m → apOk m) ∧
    (∀ (fv : Nat) (j : Json) (k p : String) (q : Json),
      VError.propertyNotInSchema k p q ∉ (validatorRun t fv j).errors) := by
  have ht : allApOk t := parserRun_allApOk fc s σ t h
  refine ⟨ht, ?_⟩
  intro fv j k p q
  exact validateNode_noPNIS t ht fv [] t j ht k p q

theorem claim_C10_witness :
    (parserRun 5 c10schema cleanState).1.rootNode = some c10t ∧
    ((∀ m, Desc c10t m → apOk m) ∧
     (∀ (fv : Nat) (j : Json) (k p : String) (q : Json),
        VError.propertyNotInSchema k p q ∉ (validatorRun c10t fv j).errors)) :=
  ⟨rfl, claim_C10 5 c10schema cleanState c10t rfl⟩

end JsonValidator
